import Mathlib

/-!
Verification development for the health-coach bot (src/main.py).

The per-user state is a CSV row; each metric log is a single string of
tokens "date:value[:extra]" joined by semicolons.  We model Python strings
as `List Char` (Python compares strings by code points, which matches
comparing `Char.toNat` pointwise), Python's `str.split(sep)` as `splitPy`,
Python's `int(...)` / `float(...)` as `parseInt?` / `parseDec?` returning
`Option` (an exception becomes `none`), and Python dicts keyed by strings
as association lists in insertion order (`dictUpd` mirrors
`d[k] = d.get(k, 0) + v`: an existing key keeps its position, a new key is
appended at the end).
-/

namespace HealthBot

/-- Python string: a sequence of characters compared by code point. -/
abbrev PyStr := List Char

/-- Python's `s.split(sep)` for a one-character separator: `"".split(sep)`
is `[""]`, and every occurrence of the separator produces a cut. -/
def splitPy : PyStr → Char → List PyStr
  | [], _ => [[]]
  | c :: rest, sep =>
    match splitPy rest sep with
    | [] => [[]]
    | t :: ts => if c = sep then [] :: t :: ts else (c :: t) :: ts

/-- Python's `<` on strings: lexicographic comparison of code points, a
proper prefix being smaller. -/
def strLt : PyStr → PyStr → Bool
  | [], [] => false
  | [], _ :: _ => true
  | _ :: _, [] => false
  | a :: as, b :: bs => a.toNat < b.toNat || (a.toNat == b.toNat && strLt as bs)

/-- Python's `x >= y` on strings (total order, so `x >= y` iff `not (x < y)`).
This is the comparison used by the 7-day window filters in
`health_summary` and `weekly_trend` (src/main.py lines 416-423, 468-486). -/
def strGe (a b : PyStr) : Bool := !(strLt a b)

/-- Convenience: `a <= b` on Python strings. -/
def strLe (a b : PyStr) : Bool := !(strLt b a)

/-- Test whether `p` is an initial segment of `s`. -/
def startsWith : PyStr → PyStr → Bool
  | [], _ => true
  | _ :: _, [] => false
  | a :: as, b :: bs => a = b && startsWith as bs

/-- Python's `sub in s` substring test. -/
def containsSub (sub : PyStr) (s : PyStr) : Bool :=
  startsWith sub s ||
    match s with
    | [] => false
    | _ :: t => containsSub sub t

/-- ASCII decimal digit test (the digits accepted by `int(...)` on the
tokens this program produces). -/
def isDigitCh (c : Char) : Bool := 48 ≤ c.toNat && c.toNat ≤ 57

/-- Numeric value of a digit string (helper for `parseNat?`). -/
def digitsVal (cs : PyStr) : Nat :=
  cs.foldl (fun a c => a * 10 + (c.toNat - 48)) 0

/-- Python's `int(s)` on an unsigned token: succeeds exactly on a nonempty
all-digit string.  (Python's `int` additionally tolerates surrounding
whitespace, a `+` sign and `_` separators; the tokens read back by this
program never use those forms.) -/
def parseNat? (cs : PyStr) : Option Nat :=
  if cs ≠ [] && cs.all isDigitCh then some (digitsVal cs) else none

/-- Python's `int(s)` including a leading minus sign; an unparseable string
(`ValueError`) becomes `none`. -/
def parseInt? : PyStr → Option Int
  | '-' :: rest => (parseNat? rest).map (fun n => -(Int.ofNat n))
  | cs => (parseNat? cs).map Int.ofNat

/-- Unsigned decimal mantissa of a float literal, valued in `ℚ`:
`digits`, `digits.digits`, `digits.` or `.digits`.  Parse failure is
`none`. -/
def parseDecCore (cs : PyStr) : Option ℚ :=
  match splitPy cs '.' with
  | [w] => (parseNat? w).map (fun (n : ℕ) => (n : ℚ))
  | [w, f] =>
    if (w ≠ [] || f ≠ []) && w.all isDigitCh && f.all isDigitCh then
      some ((digitsVal w : ℚ) + (digitsVal f : ℚ) / ((10 : ℚ) ^ f.length))
    else none
  | _ => none

/-- Exponent part of a float literal (the text after `e`/`E`): an
optionally signed digit string. -/
def parseExp? : PyStr → Option Int
  | '+' :: rest => (parseNat? rest).map Int.ofNat
  | '-' :: rest => (parseNat? rest).map (fun n => -(Int.ofNat n))
  | cs => (parseNat? cs).map Int.ofNat

/-- Split a float literal at its first `e`/`E`, if any. -/
def breakAtExp : PyStr → PyStr × Option PyStr
  | [] => ([], none)
  | c :: t =>
    if c = 'e' || c = 'E' then ([], some t)
    else (c :: (breakAtExp t).1, (breakAtExp t).2)

/-- Unsigned finite float literal: `digits[.digits]` with an optional
`e[±]digits` exponent. -/
def parseMantissaExp? (cs : PyStr) : Option ℚ :=
  match breakAtExp cs with
  | (mant, none) => parseDecCore mant
  | (mant, some ex) =>
    match parseDecCore mant, parseExp? ex with
    | some q, some z => some (q * (10 : ℚ) ^ z)
    | _, _ => none

/-- Python's `float(s)` on finite literals, valued in `ℚ`: an optional
`+`/`-` sign, then a decimal mantissa with an optional exponent.
(`inf`/`nan` literals are handled by `parseFloat?` below; underscore digit
separators are not modelled.) -/
def parseDec? : PyStr → Option ℚ
  | '+' :: rest => parseMantissaExp? rest
  | '-' :: rest => (parseMantissaExp? rest).map (fun q => -q)
  | cs => parseMantissaExp? cs

/-- Character for the decimal digit `n % 10` (code point `48 + n % 10`). -/
def dchar (n : Nat) : Char := Char.ofNat (48 + n % 10)

/-- Fuelled digit printer (helper for `natToChars`; the fuel makes the
recursion structural so that concrete instances reduce by `decide`). -/
def natToCharsAux : Nat → Nat → PyStr
  | 0, _ => []
  | fuel + 1, n => if n < 10 then [dchar n] else natToCharsAux fuel (n / 10) ++ [dchar (n % 10)]

/-- Python's `str(n)` for a natural number: decimal digits, no padding. -/
def natToChars (n : Nat) : PyStr := natToCharsAux (n + 1) n

/-- Python's `str(i)` for an integer (a `-` sign for negatives). -/
def intToChars (i : Int) : PyStr :=
  if i < 0 then '-' :: natToChars i.natAbs else natToChars i.toNat

/-- Python's `s.strip()`: drop whitespace from both ends. -/
def stripStr (cs : PyStr) : PyStr :=
  ((cs.dropWhile Char.isWhitespace).reverse.dropWhile Char.isWhitespace).reverse

/-- Python's `s.lower()` (ASCII case folding, which covers the goal tags
and the `kg` unit this program compares). -/
def toLowerStr (cs : PyStr) : PyStr := cs.map Char.toLower

/-- Characters with equal code points are equal. -/
theorem char_toNat_inj {a b : Char} (h : a.toNat = b.toNat) : a = b := by
  cases a; cases b
  simp only [Char.toNat] at h
  congr 1
  exact UInt32.toNat.inj h

/-- String comparison is irreflexive. -/
theorem strLt_irrefl (a : PyStr) : strLt a a = false := by
  induction a with
  | nil => rfl
  | cons c t ih => simp [strLt, ih]

/-- String comparison is asymmetric. -/
theorem strLt_asymm : ∀ (a b : PyStr), strLt a b = true → strLt b a = false
  | [], [] => by simp [strLt]
  | [], _ :: _ => fun _ => rfl
  | _ :: _, [] => by simp [strLt]
  | a :: as, b :: bs => by
    intro h
    simp only [strLt, Bool.or_eq_true, Bool.and_eq_true, decide_eq_true_eq,
      beq_iff_eq] at h
    simp only [strLt, Bool.or_eq_false_iff, Bool.and_eq_false_iff,
      decide_eq_false_iff_not, beq_eq_false_iff_ne, ne_eq, not_lt]
    rcases h with h | ⟨he, hs⟩
    · exact ⟨by omega, Or.inl (by omega)⟩
    · exact ⟨by omega, Or.inr (strLt_asymm as bs hs)⟩

/-- String comparison is transitive. -/
theorem strLt_trans : ∀ (a b c : PyStr),
    strLt a b = true → strLt b c = true → strLt a c = true
  | a, [], _ => by intro h1 _; cases a <;> simp [strLt] at h1
  | [], _ :: _, [] => by intro _ h2; simp [strLt] at h2
  | [], _ :: _, _ :: _ => fun _ _ => rfl
  | _ :: _, _ :: _, [] => by intro _ h2; simp [strLt] at h2
  | a :: as, b :: bs, c :: cs => by
    intro h1 h2
    simp only [strLt, Bool.or_eq_true, Bool.and_eq_true, decide_eq_true_eq,
      beq_iff_eq] at h1 h2 ⊢
    rcases h1 with h1 | ⟨e1, s1⟩ <;> rcases h2 with h2 | ⟨e2, s2⟩
    · exact Or.inl (by omega)
    · exact Or.inl (by omega)
    · exact Or.inl (by omega)
    · exact Or.inr ⟨by omega, strLt_trans as bs cs s1 s2⟩

/-- Strings that compare below each other in neither direction are equal. -/
theorem strLt_conn : ∀ (a b : PyStr),
    strLt a b = false → strLt b a = false → a = b
  | [], [] => by simp
  | [], _ :: _ => by simp [strLt]
  | _ :: _, [] => by intro _ h2; simp [strLt] at h2
  | a :: as, b :: bs => by
    intro h1 h2
    simp only [strLt, Bool.or_eq_false_iff, Bool.and_eq_false_iff,
      decide_eq_false_iff_not, beq_eq_false_iff_ne, ne_eq, not_lt] at h1 h2
    rcases h1 with ⟨hab, h1⟩
    rcases h2 with ⟨hba, h2⟩
    have he : a = b := char_toNat_inj (by omega)
    subst he
    rcases h1 with h1 | h1
    · exact absurd rfl h1
    rcases h2 with h2 | h2
    · exact absurd rfl h2
    · exact congrArg (a :: ·) (strLt_conn as bs h1 h2)

/-- Result of a Python split is never the empty list. -/
theorem splitPy_ne_nil (cs : PyStr) (sep : Char) : splitPy cs sep ≠ [] := by
  cases cs with
  | nil => simp [splitPy]
  | cons c t =>
    cases hs : splitPy t sep with
    | nil => simp [splitPy, hs]
    | cons u us =>
      simp only [splitPy, hs]
      split <;> simp

/-- Splitting a string that does not contain the separator returns the
one-element list holding the whole string. -/
theorem splitPy_no_sep (cs : PyStr) (sep : Char) (h : sep ∉ cs) :
    splitPy cs sep = [cs] := by
  induction cs with
  | nil => rfl
  | cons c t ih =>
    simp only [List.mem_cons, not_or] at h
    simp [splitPy, ih h.2, Ne.symm h.1]

/-- Python splits at every separator occurrence:
`(a + sep + b).split(sep) = a.split(sep) + b.split(sep)`. -/
theorem splitPy_append (a b : PyStr) (sep : Char) :
    splitPy (a ++ sep :: b) sep = splitPy a sep ++ splitPy b sep := by
  induction a with
  | nil =>
    simp only [List.nil_append, splitPy]
    cases hs : splitPy b sep with
    | nil => exact absurd hs (splitPy_ne_nil b sep)
    | cons u us => simp [hs]
  | cons c t ih =>
    simp only [List.cons_append, splitPy]
    cases hs : splitPy t sep with
    | nil => exact absurd hs (splitPy_ne_nil t sep)
    | cons u us =>
      rw [List.append_eq, ih, hs]
      simp only [List.cons_append]
      split <;> simp

/-- Code point of a digit character. -/
theorem dchar_toNat (n : Nat) : (dchar n).toNat = 48 + n % 10 := by
  have h : n % 10 < 10 := Nat.mod_lt _ (by norm_num)
  unfold dchar
  generalize n % 10 = k at *
  interval_cases k <;> rfl

/-- Digit characters satisfy the digit test. -/
theorem isDigitCh_dchar (n : Nat) : isDigitCh (dchar n) = true := by
  have h : n % 10 < 10 := Nat.mod_lt _ (by norm_num)
  simp only [isDigitCh, dchar_toNat, Bool.and_eq_true, decide_eq_true_eq]
  omega

/-- Printed digits pass the digit test. -/
theorem natToCharsAux_all_digits : ∀ (fuel n : Nat), n < fuel →
    (natToCharsAux fuel n).all isDigitCh = true
  | 0, _ => by omega
  | fuel + 1, n => by
    intro h
    unfold natToCharsAux
    split
    · simp [isDigitCh_dchar]
    · next hn =>
      rw [List.all_append]
      have hd : n / 10 < fuel := by omega
      simp [natToCharsAux_all_digits fuel (n / 10) hd, isDigitCh_dchar]

/-- Printed numbers are nonempty strings. -/
theorem natToCharsAux_ne_nil : ∀ (fuel n : Nat), n < fuel →
    natToCharsAux fuel n ≠ []
  | 0, _ => by omega
  | fuel + 1, n => by
    intro h
    unfold natToCharsAux
    split
    · simp
    · simp

/-- Folding up the printed digits of `n` yields `n` again. -/
theorem digitsVal_natToCharsAux : ∀ (fuel n : Nat), n < fuel →
    digitsVal (natToCharsAux fuel n) = n
  | 0, _ => by omega
  | fuel + 1, n => by
    intro h
    unfold natToCharsAux
    split
    · next hn =>
      simp only [digitsVal, List.foldl_cons, List.foldl_nil, dchar_toNat]
      omega
    · next hn =>
      have hd : n / 10 < fuel := by omega
      have ih := digitsVal_natToCharsAux fuel (n / 10) hd
      simp only [digitsVal, List.foldl_append, List.foldl_cons, List.foldl_nil,
        dchar_toNat] at ih ⊢
      rw [ih]
      omega

/-- Round trip: `int(str(n)) = n` for natural numbers. -/
theorem parseNat?_natToChars (n : Nat) : parseNat? (natToChars n) = some n := by
  unfold parseNat? natToChars
  rw [if_pos]
  · rw [digitsVal_natToCharsAux (n + 1) n (by omega)]
  · simp [natToCharsAux_ne_nil (n + 1) n (by omega),
      natToCharsAux_all_digits (n + 1) n (by omega)]

/-- Every character of a printed natural number is a digit. -/
theorem mem_natToChars (n : Nat) (c : Char) (hc : c ∈ natToChars n) :
    isDigitCh c = true := by
  have h := natToCharsAux_all_digits (n + 1) n (by omega)
  rw [List.all_eq_true] at h
  exact h c hc

/-- Applying `parseInt?` to a string that does not begin with a minus sign
falls through to the unsigned case. -/
theorem parseInt?_not_neg (c : Char) (t : PyStr) (h : c ≠ '-') :
    parseInt? (c :: t) = (parseNat? (c :: t)).map Int.ofNat := by
  unfold parseInt?
  split
  · next heq =>
    injection heq with h1 h2
    exact absurd h1 h
  · rfl

/-- Round trip: `int(str(i)) = i` for integers. -/
theorem parseInt?_intToChars (i : Int) : parseInt? (intToChars i) = some i := by
  unfold intToChars
  split
  · next hneg =>
    have h0 : parseInt? ('-' :: natToChars i.natAbs) =
        (parseNat? (natToChars i.natAbs)).map (fun n => -(Int.ofNat n)) := rfl
    rw [h0, parseNat?_natToChars]
    simp only [Option.map_some']
    congr 1
    simp only [Int.ofNat_eq_coe]
    omega
  · next hpos =>
    cases hn : natToChars i.toNat with
    | nil => exact absurd hn (natToCharsAux_ne_nil (i.toNat + 1) i.toNat (by omega))
    | cons c t =>
      have hc : c ≠ '-' := by
        intro he
        have := mem_natToChars i.toNat c (by rw [hn]; exact List.mem_cons_self ..)
        rw [he] at this
        exact absurd this (by decide)
      rw [parseInt?_not_neg c t hc, ← hn, parseNat?_natToChars]
      simp only [Option.map_some']
      congr 1
      simp only [Int.ofNat_eq_coe]
      omega

/-! ## Aggregation engine (src/main.py: `health_summary` lines 398-442 and
`weekly_trend` lines 444-503)

A stored metric log is read back as `cell.split(';')`, a `List PyStr` of
tokens.  Both commands filter tokens with
`if log and log.split(':')[0] >= start_date` and read the value with
`int(log.split(':')[1])` (or `float` for sleep); a failing read raises and
aborts the command, which the model renders as `none`. -/

/-- Token field `log.split(':')[0]` (total: a Python split is never empty). -/
def tokenDate (tok : PyStr) : PyStr := (splitPy tok ':').headD []

/-- Token field `log.split(':')[1]`; an `IndexError` becomes `none`. -/
def tokenVal (tok : PyStr) : Option PyStr := (splitPy tok ':')[1]?

/-- Window filter `if log and log.split(':')[0] >= start_date` from both
aggregation commands. -/
def inWindow (start tok : PyStr) : Bool := !tok.isEmpty && strGe (tokenDate tok) start

/-- Integer value of a token, `int(log.split(':')[1])`. -/
def tokenInt (tok : PyStr) : Option Int := (tokenVal tok).bind parseInt?

/-- Decimal value of a token, `float(log.split(':')[1])`. -/
def tokenDec (tok : PyStr) : Option ℚ := (tokenVal tok).bind parseDec?

/-- Windowed integer total,
`sum(int(log.split(':')[1]) for log in logs if log and log.split(':')[0] >= start_date)`;
a `ValueError`/`IndexError` on any windowed token becomes `none`
(the source has no try/except here). -/
def sumLogsInt (logs : List PyStr) (start : PyStr) : Option Int :=
  ((logs.filter (inWindow start)).mapM tokenInt).map (fun (vs : List Int) => vs.sum)

/-- Windowed decimal total (the sleep metric). -/
def sumLogsDec (logs : List PyStr) (start : PyStr) : Option ℚ :=
  ((logs.filter (inWindow start)).mapM tokenDec).map (fun (vs : List ℚ) => vs.sum)

/-- Count of distinct dates with windowed data,
`len(set(log.split(':')[0] for log in logs if log and log.split(':')[0] >= start_date))`. -/
def daysWithData (logs : List PyStr) (start : PyStr) : Nat :=
  ((logs.filter (inWindow start)).map tokenDate).dedup.length

/-- Per-day average of an integer metric:
`total / days if days > 0 else 0` (src/main.py lines 426-428).  This is
`avg_water` and `avg_stress` in `health_summary`. -/
def avgOfInt (logs : List PyStr) (start : PyStr) : Option ℚ :=
  (sumLogsInt logs start).map (fun (t : Int) =>
    if 0 < daysWithData logs start then (t : ℚ) / (daysWithData logs start : ℚ) else 0)

/-- Per-day average of the decimal sleep metric (`avg_sleep`). -/
def avgOfDec (logs : List PyStr) (start : PyStr) : Option ℚ :=
  (sumLogsDec logs start).map (fun (t : ℚ) =>
    if 0 < daysWithData logs start then t / (daysWithData logs start : ℚ) else 0)

/-- Windowed workout session count,
`len([log for log in workout_logs if log and log.split(':')[0] >= start_date])`. -/
def workoutCount (logs : List PyStr) (start : PyStr) : Nat :=
  (logs.filter (inWindow start)).length

/-- Python dict update `daily[date] = daily.get(date, 0) + v` on a dict in
insertion order: an existing key keeps its position and accumulates, a new
key is appended at the end. -/
def dictUpd {α : Type} (m : List (PyStr × α)) (d : PyStr) (v : α) (add : α → α → α) :
    List (PyStr × α) :=
  match m with
  | [] => [(d, v)]
  | (k, x) :: rest => if k = d then (k, add x v) :: rest else (k, x) :: dictUpd rest d v add

/-- Daily-totals loop of `weekly_trend` (src/main.py lines 467-486): walk
the log tokens in order, and for each windowed token accumulate its value
under its date; a value that fails to read aborts the command (`none`). -/
def buildDaily {α : Type} (getVal : PyStr → Option α) (add : α → α → α)
    (logs : List PyStr) (start : PyStr) : Option (List (PyStr × α)) :=
  logs.foldlM
    (fun m tok =>
      if inWindow start tok then (getVal tok).map (fun v => dictUpd m (tokenDate tok) v add)
      else pure m)
    []

/-- Daily water totals (`daily_water`). -/
def dailyWater (logs : List PyStr) (start : PyStr) : Option (List (PyStr × Int)) :=
  buildDaily tokenInt (· + ·) logs start

/-- Daily sleep totals (`daily_sleep`, float-valued). -/
def dailySleep (logs : List PyStr) (start : PyStr) : Option (List (PyStr × ℚ)) :=
  buildDaily tokenDec (· + ·) logs start

/-- Daily calorie totals (`daily_calories`). -/
def dailyCalories (logs : List PyStr) (start : PyStr) : Option (List (PyStr × Int)) :=
  buildDaily tokenInt (· + ·) logs start

/-- Daily workout counts (`daily_workouts`): the token value is never read,
each windowed token adds 1 under its date. -/
def dailyWorkouts (logs : List PyStr) (start : PyStr) : Option (List (PyStr × Nat)) :=
  buildDaily (fun _ => some 1) (· + ·) logs start

/-- Daily stress totals (`daily_stress`). -/
def dailyStress (logs : List PyStr) (start : PyStr) : Option (List (PyStr × Int)) :=
  buildDaily tokenInt (· + ·) logs start

/-- Trend labels produced by `weekly_trend` (src/main.py lines 489-493);
each constructor stands for the literal reply fragment, e.g. `noData` for
"No water data" and `stableOrDeclining` for "Stable or declining". -/
inductive Trend
  | noData
  | improving
  | stableOrDeclining
  | decreasing
  | stableOrIncreasing
  | moreActive
  | stableOrLessActive
  | stableOrWorsening
deriving DecidableEq, Repr

/-- Two-point test `len(daily) > 1 and pol(values[0], values[-1])` used by
every trend line, where `values = list(daily.values())` is in dict
(insertion) order. -/
def twoPoint {α : Type} (pol : α → α → Bool) (m : List (PyStr × α)) : Bool :=
  decide (1 < m.length) &&
    (match (m.map Prod.snd).head?, (m.map Prod.snd).getLast? with
     | some f, some l => pol f l
     | _, _ => false)

/-- Shared shape of every trend line: `"No data" if not daily else UP if
len(daily) > 1 and polarity(values[0], values[-1]) else DOWN`. -/
def classifyTwoPoint {α : Type} (pol : α → α → Bool) (up dn : Trend)
    (m : List (PyStr × α)) : Trend :=
  if m.isEmpty then .noData
  else if twoPoint pol m then up
  else dn

/-- Water line: `"No water data" if not daily_water else "Improving" if
len > 1 and values[-1] > values[0] else "Stable or declining"`. -/
def waterTrend (m : List (PyStr × Int)) : Trend :=
  classifyTwoPoint (fun (f l : Int) => decide (f < l)) .improving .stableOrDeclining m

/-- Sleep line (same polarity as water, float values). -/
def sleepTrend (m : List (PyStr × ℚ)) : Trend :=
  classifyTwoPoint (fun (f l : ℚ) => decide (f < l)) .improving .stableOrDeclining m

/-- Calorie line: `"Decreasing" if len > 1 and values[-1] < values[0] else
"Stable or increasing"`. -/
def calorieTrend (m : List (PyStr × Int)) : Trend :=
  classifyTwoPoint (fun (f l : Int) => decide (l < f)) .decreasing .stableOrIncreasing m

/-- Workout line: `"More active" if len > 1 and values[-1] > values[0] else
"Stable or less active"`. -/
def workoutTrend (m : List (PyStr × Nat)) : Trend :=
  classifyTwoPoint (fun (f l : Nat) => decide (f < l)) .moreActive .stableOrLessActive m

/-- Stress line: `"Improving" if len > 1 and values[-1] < values[0] else
"Stable or worsening"`. -/
def stressTrend (m : List (PyStr × Int)) : Trend :=
  classifyTwoPoint (fun (f l : Int) => decide (l < f)) .improving .stableOrWorsening m

/-- Water trend of a raw log, as `/weekly_trend` computes it. -/
def weeklyTrendWater (logs : List PyStr) (start : PyStr) : Option Trend :=
  (dailyWater logs start).map waterTrend

/-- Sleep trend of a raw log. -/
def weeklyTrendSleep (logs : List PyStr) (start : PyStr) : Option Trend :=
  (dailySleep logs start).map sleepTrend

/-- Calorie trend of a raw log. -/
def weeklyTrendCalories (logs : List PyStr) (start : PyStr) : Option Trend :=
  (dailyCalories logs start).map calorieTrend

/-- Workout trend of a raw log. -/
def weeklyTrendWorkouts (logs : List PyStr) (start : PyStr) : Option Trend :=
  (dailyWorkouts logs start).map workoutTrend

/-- Stress trend of a raw log. -/
def weeklyTrendStress (logs : List PyStr) (start : PyStr) : Option Trend :=
  (dailyStress logs start).map stressTrend

/-! ## Claim-side (specification) chronological classifier

The written spec asserts the two-point comparison happens on the
"chronologically ordered daily-totals mapping".  The following definitions
follow the spec's words: sort the daily-totals mapping by date and compare
the first bucket value with the last bucket value. -/

/-- Insert one dated bucket into a date-sorted bucket list. -/
def insertByKey {α : Type} (p : PyStr × α) : List (PyStr × α) → List (PyStr × α)
  | [] => [p]
  | q :: rest => if strLe p.1 q.1 then p :: q :: rest else q :: insertByKey p rest

/-- Insertion sort of a bucket list by date (the spec's "chronologically
ordered daily-totals mapping"). -/
def sortByKey {α : Type} : List (PyStr × α) → List (PyStr × α)
  | [] => []
  | p :: rest => insertByKey p (sortByKey rest)

/-- Claim-side classifier: on the chronologically ordered daily-totals
mapping, return `noData` for an empty mapping and otherwise compare only
the first bucket value against the last bucket value with the
metric-specific polarity `pol`, giving `up` when `pol first last` holds and
the stable branch `dn` otherwise. -/
def specTrendChron {α : Type} (pol : α → α → Bool) (up dn : Trend)
    (m : List (PyStr × α)) : Trend :=
  let cm := sortByKey m
  match (cm.map Prod.snd).head?, (cm.map Prod.snd).getLast? with
  | some f, some l => if pol f l then up else dn
  | _, _ => .noData

/-- Spec-side water trend on a raw log: build the daily totals, order them
chronologically, then apply the two-point rule with the water polarity. -/
def specWeeklyTrendWater (logs : List PyStr) (start : PyStr) : Option Trend :=
  (dailyWater logs start).map (specTrendChron (fun (f l : Int) => decide (f < l))
    .improving .stableOrDeclining)

/-! ## User record store and the five metric-log commands

The CSV dataframe row for one user (src/main.py lines 36-39) is modelled
with one cell per column; the store is the list of rows.  `df[df['user_id'] == id]`
takes the first matching row, and `df.loc[df['user_id'] == id, col] = v`
writes every matching row.  The CSV round trip matters for the optional
columns: `pd.read_csv` reads an empty CSV cell back as the float NaN, so a
log or progress cell a handler sees is either a real string or NaN — here
`Option PyStr`, with `none` for NaN.  NaN is truthy and `nan + str` /
`nan.lower()` raise, so code that reaches such an expression on a NaN cell
dies with an uncaught exception: no reply is sent, and nothing past that
point runs.  A handler therefore returns `Store × Option Reply`: the store
as of the moment the handler stopped, and `none` in place of a reply when
it raised.  (The reminders cell is guarded by `pd.notna` at src/main.py
line 84, so the reminder scan below takes the present-cell string
directly.) -/

structure UserRecord where
  name : PyStr
  weight : ℚ
  height : ℚ
  goal : PyStr
  reminders : PyStr
  progress : Option PyStr
  feedback : PyStr
  conversation : PyStr
  water_log : Option PyStr
  sleep_log : Option PyStr
  calorie_log : Option PyStr
  workout_log : Option PyStr
  stress_log : Option PyStr
deriving DecidableEq, Repr

/-- The user-data table: one row per user id. -/
abbrev Store := List (Nat × UserRecord)

/-- Row lookup `df[df['user_id'] == user_id]` (first matching row). -/
def getUser (st : Store) (uid : Nat) : Option UserRecord :=
  (st.find? (fun p => p.1 == uid)).map Prod.snd

/-- Row update `df.loc[df['user_id'] == user_id, ...] = ...` (writes every
matching row). -/
def setUser (st : Store) (uid : Nat) (r : UserRecord) : Store :=
  st.map (fun p => if p.1 == uid then (p.1, r) else p)

/-- Shared append expression of all five log handlers on a cell that holds
an actual string:
`log + f";{entry}" if log else entry` (src/main.py lines 245, 269, 292, 315, 335).
The `else entry` branch transliterates the falsy (empty-string) case of the
conditional; when the cell holds NaN instead of a string — the CSV round
trip of an empty cell — the truthy NaN selects `nan + f";{entry}"`, which
raises TypeError before any write: the handlers below map that case to a
crash and never reach this function. -/
def appendLog (old entry : PyStr) : PyStr :=
  if old.isEmpty then entry else old ++ ';' :: entry

/-- Entries of a stored log cell: the nonempty `;`-separated tokens (every
reader skips falsy tokens with `if log`). -/
def logEntries (cell : PyStr) : List PyStr :=
  (splitPy cell ';').filter (fun t => !t.isEmpty)

/-- Python's `s.isdigit()` for ASCII digits: nonempty and all digits. -/
def isdigitStr (cs : PyStr) : Bool := !cs.isEmpty && cs.all isDigitCh

/-- Python's `' '.join(parts)`. -/
def joinSp : List PyStr → PyStr
  | [] => []
  | [p] => p
  | p :: q :: rest => p ++ ' ' :: joinSp (q :: rest)

/-- Python's `s.replace('.', '')`: remove every dot. -/
def removeDots (cs : PyStr) : PyStr := cs.filter (fun c => c ≠ '.')

/-- Smallest exponent `k` (searched up to the fuel) with `d ∣ 10 ^ k`
(helper for `decRepr`). -/
def denExpAux : Nat → Nat → Nat → Nat
  | 0, _, k => k
  | fuel + 1, d, k => if 10 ^ k % d = 0 then k else denExpAux fuel d (k + 1)

/-- Number of decimal places needed to clear a denominator. -/
def denExp (d : Nat) : Nat := denExpAux 400 d 0

/-- Zero-pad a digit string on the left to width `k`. -/
def padZeros (k : Nat) (cs : PyStr) : PyStr :=
  List.replicate (k - cs.length) '0' ++ cs

/-- Printed form `str(x)` of a Python float holding a finite decimal, e.g.
`"7.5"` or `"7.0"` (an integral value always prints one `.0`).  Binary
floating-point rounding artifacts of extreme literals are not modelled. -/
def decRepr (q : ℚ) : PyStr :=
  let sign : PyStr := if q.num < 0 then ['-'] else []
  let k := denExp q.den
  let m := q.num.natAbs * (10 ^ k / q.den)
  if k = 0 then sign ++ natToChars m ++ ['.', '0']
  else sign ++ natToChars (m / 10 ^ k) ++ '.' :: padZeros k (natToChars (m % 10 ^ k))

/-- Replies of the log handlers that matter to the claims. -/
inductive Reply
  | usage
  | profileFirst
  | logged
deriving DecidableEq, Repr

/-- Post-write today's-total sum of `/log_water` and `/log_calories`
(src/main.py lines 247 and 294):
`sum(int(entry.split(':')[1]) for entry in cell.split(';') if entry.startswith(today))`
over the freshly written cell.  `entry.split(':')[1]` raises IndexError on
a colon-free entry and `int` raises ValueError on a non-numeric value
segment, so the sum is `none` when some same-day entry is malformed — the
row was already written back, only the reply dies. -/
def todayTotal (cell today : PyStr) : Option Int :=
  (((splitPy cell ';').filter (fun e => startsWith today e)).mapM
    (fun e => ((splitPy e ':')[1]?).bind parseInt?)).map (fun l => l.sum)

/-- Handler `/log_water <ml>` (src/main.py lines 230-252): reject a missing
or non-digit argument, reject a user without a row, crash (TypeError) on a
NaN water cell, else append `f"{today}:{int(args[0])}"` to the water log,
write the row back, and then compute the today's-total reply — which can
itself raise after the write. -/
def log_water (st : Store) (uid : Nat) (args : List PyStr) (today : PyStr) :
    Store × Option Reply :=
  match args with
  | [] => (st, some .usage)
  | a :: _ =>
    if !isdigitStr a then (st, some .usage)
    else
      match getUser st uid with
      | none => (st, some .profileFirst)
      | some r =>
        match r.water_log with
        | none => (st, none)
        | some cell =>
          let entry := today ++ ':' :: natToChars (digitsVal a)
          let newCell := appendLog cell entry
          let st' := setUser st uid { r with water_log := some newCell }
          match todayTotal newCell today with
          | none => (st', none)
          | some _ => (st', some .logged)

/-- Handler `/log_sleep <hours>` (src/main.py lines 254-275): the argument
must pass `args[0].replace('.', '').isdigit()`; then `float(args[0])` at
line 261 runs before the dataframe is even read and raises ValueError on a
multi-dot argument such as `1.2.3`; a NaN sleep cell crashes the append;
otherwise the stored value is `f"{today}:{float(args[0])}"`. -/
def log_sleep (st : Store) (uid : Nat) (args : List PyStr) (today : PyStr) :
    Store × Option Reply :=
  match args with
  | [] => (st, some .usage)
  | a :: _ =>
    if !isdigitStr (removeDots a) then (st, some .usage)
    else
      match parseDec? a with
      | none => (st, none)
      | some q =>
        match getUser st uid with
        | none => (st, some .profileFirst)
        | some r =>
          match r.sleep_log with
          | none => (st, none)
          | some cell =>
            let entry := today ++ ':' :: decRepr q
            (setUser st uid { r with sleep_log := some (appendLog cell entry) },
              some .logged)

/-- Handler `/log_calories <calories> <meal>` (src/main.py lines 277-299):
needs at least two arguments with a digit first one; a NaN calorie cell
crashes the append; otherwise the stored token is
`f"{today}:{calories}:{meal}"` with `meal = ' '.join(args[1:])`, and the
post-write today's-total reply can still raise. -/
def log_calories (st : Store) (uid : Nat) (args : List PyStr) (today : PyStr) :
    Store × Option Reply :=
  match args with
  | [] => (st, some .usage)
  | [_] => (st, some .usage)
  | a :: rest =>
    if !isdigitStr a then (st, some .usage)
    else
      match getUser st uid with
      | none => (st, some .profileFirst)
      | some r =>
        match r.calorie_log with
        | none => (st, none)
        | some cell =>
          let entry := today ++ ':' :: natToChars (digitsVal a) ++ ':' :: joinSp rest
          let newCell := appendLog cell entry
          let st' := setUser st uid { r with calorie_log := some newCell }
          match todayTotal newCell today with
          | none => (st', none)
          | some _ => (st', some .logged)

/-- Handler `/log_workout <description>` (src/main.py lines 301-318): the
joined description must be nonempty; a NaN workout cell crashes the
append; otherwise the stored token is `f"{today}:{workout}"`. -/
def log_workout (st : Store) (uid : Nat) (args : List PyStr) (today : PyStr) :
    Store × Option Reply :=
  if (joinSp args).isEmpty then (st, some .usage)
  else
    match getUser st uid with
    | none => (st, some .profileFirst)
    | some r =>
      match r.workout_log with
      | none => (st, none)
      | some cell =>
        let entry := today ++ ':' :: joinSp args
        (setUser st uid { r with workout_log := some (appendLog cell entry) },
          some .logged)

/-- Handler `/log_stress <1-5>` (src/main.py lines 320-341): the argument
must be a digit string whose value lies in `range(1, 6)`; a NaN stress
cell crashes the append. -/
def log_stress (st : Store) (uid : Nat) (args : List PyStr) (today : PyStr) :
    Store × Option Reply :=
  match args with
  | [] => (st, some .usage)
  | a :: _ =>
    if !(isdigitStr a && decide (1 ≤ digitsVal a) && decide (digitsVal a ≤ 5)) then
      (st, some .usage)
    else
      match getUser st uid with
      | none => (st, some .profileFirst)
      | some r =>
        match r.stress_log with
        | none => (st, none)
        | some cell =>
          let entry := today ++ ':' :: natToChars (digitsVal a)
          (setUser st uid { r with stress_log := some (appendLog cell entry) },
            some .logged)

/-! ## Reminder matcher (src/main.py lines 84-95 in `generate_response`)

Stored reminders are one `;`-joined cell.  For each token the code requires
`reminder and 'at' in reminder`, takes `reminder.split(' at ')[-1]`, parses
it with `strptime('%H:%M')` (a `ValueError` is swallowed), and reports the
reminder when hour and minute equal the current time's. -/

/-- Substring `'at'` required by the guard `'at' in reminder`. -/
def atSub : PyStr := ['a', 't']

/-- Separator `' at '` used by `reminder.split(' at ')`. -/
def sepAt : PyStr := [' ', 'a', 't', ' ']

/-- Remainder after the first occurrence of `' at '`, or `none` if the
separator does not occur (helper for `afterLastAt`). -/
def chopFirstAt : PyStr → Option PyStr
  | [] => none
  | c :: t => if startsWith sepAt (c :: t) then some ((c :: t).drop 4) else chopFirstAt t

/-- Matching a pattern bounds the string length from below. -/
theorem startsWith_length : ∀ (p s : PyStr), startsWith p s = true → p.length ≤ s.length
  | [], _ => by simp
  | _ :: _, [] => by simp [startsWith]
  | a :: as, b :: bs => by
    intro h
    simp only [startsWith, Bool.and_eq_true] at h
    simpa using startsWith_length as bs h.2

/-- Chopping at a separator occurrence shortens the string. -/
theorem chopFirstAt_length : ∀ (r b : PyStr), chopFirstAt r = some b → b.length < r.length
  | [], _ => by simp [chopFirstAt]
  | c :: t, b => by
    intro h
    simp only [chopFirstAt] at h
    split at h
    · next hs =>
      have h4 := startsWith_length sepAt (c :: t) hs
      simp only [Option.some.injEq] at h
      subst h
      simp only [List.length_drop]
      simp only [sepAt, List.length_cons] at h4 ⊢
      omega
    · have := chopFirstAt_length t b h
      simp only [List.length_cons]
      omega

/-- Fuelled worker for `afterLastAt` (structural recursion on the fuel, so
that concrete instances reduce by `decide`). -/
def afterLastAtAux : Nat → PyStr → PyStr
  | 0, r => r
  | fuel + 1, r =>
    match chopFirstAt r with
    | none => r
    | some b => afterLastAtAux fuel b

/-- Python's `reminder.split(' at ')[-1]`: the text after the last
occurrence of `' at '` (the whole string when it does not occur).  The
length of the string is always enough fuel, since each chop shortens it
(`chopFirstAt_length`). -/
def afterLastAt (r : PyStr) : PyStr := afterLastAtAux r.length r

/-- Python's `datetime.strptime(s, '%H:%M')`: one or two digits for a
0-23 hour, a colon, one or two digits for a 0-59 minute, nothing else;
failure (`ValueError`) is `none`. -/
def parseHM (cs : PyStr) : Option (Nat × Nat) :=
  match splitPy cs ':' with
  | [h, m] =>
    if h.length ≤ 2 && m.length ≤ 2 && isdigitStr h && isdigitStr m
        && decide (digitsVal h ≤ 23) && decide (digitsVal m ≤ 59) then
      some (digitsVal h, digitsVal m)
    else none
  | _ => none

/-- One reminder token is reported at time `now` iff it is nonempty,
contains the substring `'at'`, and its `split(' at ')[-1]` segment parses
as a clock time equal to `now` to the minute (src/main.py lines 86-95). -/
def reminderDue (nowH nowM : Nat) (r : PyStr) : Bool :=
  !r.isEmpty && containsSub atSub r &&
    (match parseHM (afterLastAt r) with
     | some hm => hm.1 == nowH && hm.2 == nowM
     | none => false)

/-- Reminders of a stored cell reported at time `now`. -/
def dueReminders (cell : PyStr) (nowH nowM : Nat) : List PyStr :=
  (splitPy cell ';').filter (reminderDue nowH nowM)

/-! ## Goal progress evaluator (src/main.py lines 505-542, `/goal_progress`) -/

/-- Substring `'kg'`. -/
def kgSub : PyStr := ['k', 'g']

/-- Python's `progress.split('kg')[0]`: everything before the first
occurrence of `'kg'` (the whole string when it does not occur). -/
def beforeFirstKg : PyStr → PyStr
  | [] => []
  | c :: t => if startsWith kgSub (c :: t) then [] else c :: beforeFirstKg t

/-- Python float values: the finite rationals plus the infinities and NaN
that `float()` also produces from the words `inf`/`infinity`/`nan`. -/
inductive PyFloat
  | finite (q : ℚ)
  | inf
  | ninf
  | nan
deriving DecidableEq

/-- Negating a Python float (the effect of a leading `-` sign). -/
def PyFloat.neg : PyFloat → PyFloat
  | .finite q => .finite (-q)
  | .inf => .ninf
  | .ninf => .inf
  | .nan => .nan

/-- Unsigned body of a `float()` literal: the special words (matched
case-insensitively) or a finite mantissa-exponent literal. -/
def parseFloatCore (cs : PyStr) : Option PyFloat :=
  if toLowerStr cs = ("inf").toList || toLowerStr cs = ("infinity").toList then some .inf
  else if toLowerStr cs = ("nan").toList then some .nan
  else (parseMantissaExp? cs).map PyFloat.finite

/-- Python's `float(s)` in full: surrounding whitespace is stripped, then
an optional `+`/`-` sign, then the special words or a finite literal.
(Underscore digit separators between digits are not modelled.) -/
def parseFloat? (cs : PyStr) : Option PyFloat :=
  match stripStr cs with
  | '+' :: rest => parseFloatCore rest
  | '-' :: rest => (parseFloatCore rest).map PyFloat.neg
  | t => parseFloatCore t

/-- Replies of `/goal_progress` that matter to the claims; each constructor
stands for a literal reply branch of src/main.py lines 524-538. -/
inductive GoalReport
  | weightChange (f : PyFloat)
  | noValidWeightChange
  | noWeightChange
  | fitness (count : Nat)
  | customGoal
deriving DecidableEq

/-- Goal-progress dispatch (result `none` = the command raised and sent no
reply): `goal.lower() in ['weight_loss', 'lose_weight']` evaluates the
guard `progress and 'kg' in progress.lower()` — a progress cell never set
since profile creation is NaN (truthy), so `progress.lower()` raises
AttributeError and the command dies — then reports
`float(progress.split('kg')[0].strip())` under a `try/except ValueError`
whose except arm is the no-valid-data reply; the fitness goals report the
windowed workout count; anything else is a custom goal. -/
def goal_progress (goal : PyStr) (progress : Option PyStr) (workoutLogs : List PyStr)
    (start : PyStr) : Option GoalReport :=
  if toLowerStr goal == ("weight_loss").toList || toLowerStr goal == ("lose_weight").toList then
    match progress with
    | none => none
    | some p =>
      if !p.isEmpty && containsSub kgSub (toLowerStr p) then
        match parseFloat? (stripStr (beforeFirstKg p)) with
        | some f => some (.weightChange f)
        | none => some .noValidWeightChange
      else some .noWeightChange
  else if toLowerStr goal == ("fitness").toList || toLowerStr goal == ("get_fit").toList then
    some (.fitness (workoutCount workoutLogs start))
  else some .customGoal

/-- Test whether a goal report is one of the two no-data branches. -/
def GoalReport.isNoData : GoalReport → Bool
  | .noValidWeightChange => true
  | .noWeightChange => true
  | _ => false

/-! ## Calendar dates and the `%Y-%m-%d` format (for claim C10) -/

structure PyDate where
  y : Nat
  m : Nat
  d : Nat
deriving DecidableEq, Repr

/-- In-range calendar date as `strftime('%Y-%m-%d')` can produce. -/
def PyDate.valid (D : PyDate) : Prop :=
  D.y ≤ 9999 ∧ 1 ≤ D.m ∧ D.m ≤ 12 ∧ 1 ≤ D.d ∧ D.d ≤ 31

instance (D : PyDate) : Decidable D.valid := by unfold PyDate.valid; exact inferInstance

/-- Four decimal digits of `%Y`, zero-padded. -/
def pad4 (n : Nat) : PyStr := [dchar (n / 1000), dchar (n / 100), dchar (n / 10), dchar n]

/-- Two decimal digits of `%m` / `%d`, zero-padded. -/
def pad2 (n : Nat) : PyStr := [dchar (n / 10), dchar n]

/-- Zero-padded `strftime('%Y-%m-%d')` date string. -/
def fmtDate (D : PyDate) : PyStr :=
  pad4 D.y ++ '-' :: (pad2 D.m ++ '-' :: pad2 D.d)

/-- Chronological (calendar) strict order on dates. -/
def dateLt (A B : PyDate) : Prop :=
  A.y < B.y ∨ (A.y = B.y ∧ (A.m < B.m ∨ (A.m = B.m ∧ A.d < B.d)))

/-- Chronological (calendar) order on dates. -/
def dateLe (A B : PyDate) : Prop := dateLt A B ∨ A = B

instance (A B : PyDate) : Decidable (dateLt A B) := by unfold dateLt; exact inferInstance

instance (A B : PyDate) : Decidable (dateLe A B) := by unfold dateLe; exact inferInstance

/-- Folding digits onto a nonzero accumulator shifts it by the place value. -/
theorem digitsVal_foldl (cs : PyStr) : ∀ (a : Nat),
    cs.foldl (fun x c => x * 10 + (c.toNat - 48)) a = a * 10 ^ cs.length + digitsVal cs := by
  induction cs with
  | nil => intro a; simp [digitsVal]
  | cons c t ih =>
    intro a
    simp only [List.foldl_cons, List.length_cons, digitsVal] at ih ⊢
    rw [ih (a * 10 + (c.toNat - 48)), ih (0 * 10 + (c.toNat - 48))]
    ring

/-- Peeling one digit off the front of a digit string. -/
theorem digitsVal_cons (c : Char) (t : PyStr) :
    digitsVal (c :: t) = (c.toNat - 48) * 10 ^ t.length + digitsVal t := by
  simp only [digitsVal, List.foldl_cons]
  rw [digitsVal_foldl]
  have h0 : (0 * 10 + (c.toNat - 48)) = c.toNat - 48 := by omega
  rw [h0]
  rfl

/-- Value of a digit string is below the place value of its length. -/
theorem digitsVal_lt : ∀ (cs : PyStr), cs.all isDigitCh = true →
    digitsVal cs < 10 ^ cs.length
  | [] => by intro _; simp [digitsVal]
  | c :: t => by
    intro h
    simp only [List.all_cons, Bool.and_eq_true] at h
    have hc : c.toNat ≤ 57 := by
      have := h.1
      simp only [isDigitCh, Bool.and_eq_true, decide_eq_true_eq] at this
      exact this.2
    have ht := digitsVal_lt t h.2
    rw [digitsVal_cons, List.length_cons]
    have hN : (10 : Nat) ^ (t.length + 1) = 10 ^ t.length * 10 := by ring
    rw [hN]
    have h1 : (c.toNat - 48) * 10 ^ t.length ≤ 9 * 10 ^ t.length :=
      Nat.mul_le_mul_right (10 ^ t.length) (by omega)
    omega

/-- Comparison of numbers written with one leading place digit. -/
theorem placeVal_lt_iff (x y p q N : Nat) (hp : p < N) (hq : q < N) :
    x * N + p < y * N + q ↔ (x < y ∨ (x = y ∧ p < q)) := by
  constructor
  · intro h
    rcases Nat.lt_trichotomy x y with hc | hc | hc
    · exact Or.inl hc
    · subst hc
      exact Or.inr ⟨rfl, by omega⟩
    · exfalso
      have h1 : (y + 1) * N ≤ x * N := Nat.mul_le_mul_right N hc
      have h2 : (y + 1) * N = y * N + N := by ring
      omega
  · rintro (hc | ⟨hc, hpq⟩)
    · have h1 : (x + 1) * N ≤ y * N := Nat.mul_le_mul_right N hc
      have h2 : (x + 1) * N = x * N + N := by ring
      omega
    · subst hc
      omega

/-- On equal-length digit strings, Python string comparison agrees with
numeric comparison of the digit values. -/
theorem strLt_digits : ∀ (ds es : PyStr), ds.length = es.length →
    ds.all isDigitCh = true → es.all isDigitCh = true →
    (strLt ds es = true ↔ digitsVal ds < digitsVal es)
  | [], [] => by intro _ _ _; simp [strLt, digitsVal]
  | [], _ :: _ => by simp
  | _ :: _, [] => by simp
  | d :: ds, e :: es => by
    intro hlen hd he
    simp only [List.length_cons, Nat.add_right_cancel_iff] at hlen
    simp only [List.all_cons, Bool.and_eq_true] at hd he
    have ihl := strLt_digits ds es hlen hd.2 he.2
    have hvd := digitsVal_lt ds hd.2
    have hve := digitsVal_lt es he.2
    rw [hlen] at hvd
    have hdc : 48 ≤ d.toNat ∧ d.toNat ≤ 57 := by
      have := hd.1
      simp only [isDigitCh, Bool.and_eq_true, decide_eq_true_eq] at this
      exact this
    have hec : 48 ≤ e.toNat ∧ e.toNat ≤ 57 := by
      have := he.1
      simp only [isDigitCh, Bool.and_eq_true, decide_eq_true_eq] at this
      exact this
    rw [digitsVal_cons d ds, digitsVal_cons e es, hlen,
      placeVal_lt_iff _ _ _ _ _ hvd hve]
    simp only [strLt, Bool.or_eq_true, Bool.and_eq_true, decide_eq_true_eq, beq_iff_eq]
    constructor
    · rintro (h | ⟨heq, hs⟩)
      · exact Or.inl (by omega)
      · exact Or.inr ⟨by omega, ihl.mp hs⟩
    · rintro (h | ⟨heq, hs⟩)
      · exact Or.inl (by omega)
      · exact Or.inr ⟨by omega, ihl.mpr hs⟩

/-- On equal-length digit strings, string equality agrees with equality of
the digit values. -/
theorem eq_digits : ∀ (ds es : PyStr), ds.length = es.length →
    ds.all isDigitCh = true → es.all isDigitCh = true →
    (ds = es ↔ digitsVal ds = digitsVal es) := by
  intro ds es hlen hd he
  constructor
  · intro h; rw [h]
  · intro h
    rcases Nat.lt_trichotomy (digitsVal ds) (digitsVal es) with hc | hc | hc
    · omega
    · have h1 : strLt ds es = false := by
        rcases hb : strLt ds es with _ | _
        · rfl
        · exact absurd ((strLt_digits ds es hlen hd he).mp hb) (by omega)
      have h2 : strLt es ds = false := by
        rcases hb : strLt es ds with _ | _
        · rfl
        · exact absurd ((strLt_digits es ds hlen.symm he hd).mp hb) (by omega)
      exact strLt_conn ds es h1 h2
    · omega

/-- Comparison of concatenations with equal-length first parts: compare the
first parts, then the remainders. -/
theorem strLt_append : ∀ (u1 u2 v1 v2 : PyStr), u1.length = u2.length →
    strLt (u1 ++ v1) (u2 ++ v2) = (strLt u1 u2 || (u1 == u2 && strLt v1 v2))
  | [], [], v1, v2 => by simp [strLt]
  | [], _ :: _, _, _ => by simp
  | _ :: _, [], _, _ => by simp
  | a :: u1, b :: u2, v1, v2 => by
    intro hlen
    simp only [List.length_cons, Nat.add_right_cancel_iff] at hlen
    have ih := strLt_append u1 u2 v1 v2 hlen
    simp only [List.cons_append, List.append_eq, strLt, ih, List.cons_beq_cons]
    rcases Nat.lt_trichotomy a.toNat b.toNat with hc | hc | hc
    · have h1 : decide (a.toNat < b.toNat) = true := by simpa using hc
      simp [h1]
    · have h1 : decide (a.toNat < b.toNat) = false := by simp; omega
      have h2 : (a.toNat == b.toNat) = true := by simpa using hc
      have h3 : (a == b) = true := by
        simpa using char_toNat_inj (by simpa using hc)
      simp [h1, h2, h3]
    · have h1 : decide (a.toNat < b.toNat) = false := by simp; omega
      have h2 : (a.toNat == b.toNat) = false := by simp; omega
      have h3 : (a == b) = false := by
        simp only [beq_eq_false_iff_ne, ne_eq]
        intro he
        rw [he] at hc
        omega
      simp [h1, h2, h3]

/-- Every `pad4` character is a digit. -/
theorem pad4_digits (n : Nat) : (pad4 n).all isDigitCh = true := by
  simp [pad4, isDigitCh_dchar]

/-- Every `pad2` character is a digit. -/
theorem pad2_digits (n : Nat) : (pad2 n).all isDigitCh = true := by
  simp [pad2, isDigitCh_dchar]

/-- Digit value of the zero-padded year. -/
theorem digitsVal_pad4 (n : Nat) (h : n ≤ 9999) : digitsVal (pad4 n) = n := by
  simp only [pad4, digitsVal, List.foldl_cons, List.foldl_nil, dchar_toNat]
  omega

/-- Digit value of a zero-padded two-digit field. -/
theorem digitsVal_pad2 (n : Nat) (h : n ≤ 99) : digitsVal (pad2 n) = n := by
  simp only [pad2, digitsVal, List.foldl_cons, List.foldl_nil, dchar_toNat]
  omega

/-- The `%Y-%m-%d` format turns chronological order into Python string
order: on valid dates, `strftime(a) < strftime(b)` iff `a` is an earlier
calendar date than `b`. -/
theorem strLt_fmtDate (A B : PyDate) (hA : A.valid) (hB : B.valid) :
    strLt (fmtDate A) (fmtDate B) = true ↔ dateLt A B := by
  obtain ⟨hy1, hm11, hm12, hd11, hd12⟩ := hA
  obtain ⟨hy2, hm21, hm22, hd21, hd22⟩ := hB
  have e1 : strLt (pad4 A.y) (pad4 B.y) = true ↔ A.y < B.y := by
    rw [strLt_digits (pad4 A.y) (pad4 B.y) (by rfl) (pad4_digits _) (pad4_digits _),
      digitsVal_pad4 _ (by omega), digitsVal_pad4 _ (by omega)]
  have e2 : pad4 A.y = pad4 B.y ↔ A.y = B.y := by
    rw [eq_digits (pad4 A.y) (pad4 B.y) (by rfl) (pad4_digits _) (pad4_digits _),
      digitsVal_pad4 _ (by omega), digitsVal_pad4 _ (by omega)]
  have e3 : strLt (pad2 A.m) (pad2 B.m) = true ↔ A.m < B.m := by
    rw [strLt_digits (pad2 A.m) (pad2 B.m) (by rfl) (pad2_digits _) (pad2_digits _),
      digitsVal_pad2 _ (by omega), digitsVal_pad2 _ (by omega)]
  have e4 : pad2 A.m = pad2 B.m ↔ A.m = B.m := by
    rw [eq_digits (pad2 A.m) (pad2 B.m) (by rfl) (pad2_digits _) (pad2_digits _),
      digitsVal_pad2 _ (by omega), digitsVal_pad2 _ (by omega)]
  have e5 : strLt (pad2 A.d) (pad2 B.d) = true ↔ A.d < B.d := by
    rw [strLt_digits (pad2 A.d) (pad2 B.d) (by rfl) (pad2_digits _) (pad2_digits _),
      digitsVal_pad2 _ (by omega), digitsVal_pad2 _ (by omega)]
  have hmid : ∀ (r1 r2 : PyStr), strLt ('-' :: r1) ('-' :: r2) = strLt r1 r2 := by
    intro r1 r2
    simp [strLt]
  unfold fmtDate
  rw [strLt_append (pad4 A.y) (pad4 B.y) _ _ (by rfl), hmid,
    strLt_append (pad2 A.m) (pad2 B.m) _ _ (by rfl), hmid]
  simp only [Bool.or_eq_true, Bool.and_eq_true, beq_iff_eq, dateLt]
  rw [e1, e2, e3, e4, e5]

/-- Calendar order is the complement of the reversed strict order. -/
theorem dateLe_iff_not_lt (A B : PyDate) : dateLe A B ↔ ¬ dateLt B A := by
  cases A
  cases B
  simp only [dateLe, dateLt, PyDate.mk.injEq]
  constructor
  · intro h
    omega
  · intro h
    omega

/-- The `>=` comparison on formatted dates agrees with calendar order. -/
theorem strGe_fmtDate (A B : PyDate) (hA : A.valid) (hB : B.valid) :
    strGe (fmtDate A) (fmtDate B) = true ↔ dateLe B A := by
  rw [strGe, Bool.not_eq_true', ← Bool.not_eq_true, dateLe_iff_not_lt]
  exact not_congr (strLt_fmtDate A B hA hB)

/-- Separator characters are not digits, hence not in a printed number. -/
theorem not_mem_natToChars (c : Char) (n : Nat) (hc : isDigitCh c = false) :
    c ∉ natToChars n := by
  intro hmem
  rw [mem_natToChars n c hmem] at hc
  cases hc

/-- The colon is not a character of a printed integer. -/
theorem colon_not_mem_intToChars (i : Int) : ':' ∉ intToChars i := by
  unfold intToChars
  split
  · intro hmem
    rcases List.mem_cons.mp hmem with h | h
    · cases h
    · exact not_mem_natToChars ':' i.natAbs (by decide) h
  · exact not_mem_natToChars ':' i.toNat (by decide)

/-- The format `%Y-%m-%d` contains digits and dashes only, never a colon. -/
theorem colon_not_mem_fmtDate (D : PyDate) : ':' ∉ fmtDate D := by
  have hd : ∀ n, (':' : Char) ≠ dchar n := by
    intro n he
    have := isDigitCh_dchar n
    rw [← he] at this
    cases this
  intro h
  simp only [fmtDate, pad4, pad2, List.cons_append, List.nil_append, List.mem_cons,
    List.not_mem_nil, or_false] at h
  rcases h with h | h | h | h | h | h | h | h | h | h
  all_goals first | exact hd _ h | exact absurd h (by decide)

/-- Splitting an encoded token on `:` separates the date from the rest. -/
theorem splitPy_token (d rest : PyStr) (hd : ':' ∉ d) :
    splitPy (d ++ ':' :: rest) ':' = d :: splitPy rest ':' := by
  rw [splitPy_append d rest ':', splitPy_no_sep d ':' hd]
  rfl

/-- Date field of an encoded token. -/
theorem tokenDate_encode (d rest : PyStr) (hd : ':' ∉ d) :
    tokenDate (d ++ ':' :: rest) = d := by
  rw [tokenDate, splitPy_token d rest hd]
  rfl

/-- Value field of an encoded token with a colon-free value. -/
theorem tokenVal_encode (d v : PyStr) (hd : ':' ∉ d) (hv : ':' ∉ v) :
    tokenVal (d ++ ':' :: v) = some v := by
  rw [tokenVal, splitPy_token d v hd, splitPy_no_sep v ':' hv]
  rfl

/-- Window test of an encoded token with a nonempty colon-free date. -/
theorem inWindow_encode (start d rest : PyStr) (hd : ':' ∉ d) (hne : d ≠ []) :
    inWindow start (d ++ ':' :: rest) = strGe d start := by
  rw [inWindow, tokenDate_encode d rest hd]
  cases d with
  | nil => exact absurd rfl hne
  | cons c t => rfl

/-- Encoded tokens are nonempty strings. -/
theorem encode_ne_nil (d rest : PyStr) : d ++ ':' :: rest ≠ [] := by
  cases d with
  | nil => simp
  | cons c t => simp

/-- Formatted dates are nonempty strings. -/
theorem fmtDate_ne_nil (D : PyDate) : fmtDate D ≠ [] := by
  simp [fmtDate, pad4]

/-- Window test on a token carrying a formatted date is the calendar test. -/
theorem inWindow_fmtDate (start D : PyDate) (v : PyStr) (hD : D.valid) (hs : start.valid) :
    inWindow (fmtDate start) (fmtDate D ++ ':' :: v) = decide (dateLe start D) := by
  rw [inWindow_encode _ _ _ (colon_not_mem_fmtDate D) (fmtDate_ne_nil D)]
  have hiff := strGe_fmtDate D start hD hs
  rcases hb : strGe (fmtDate D) (fmtDate start) with _ | _
  · rw [hb] at hiff
    simp only [Bool.false_eq_true, false_iff] at hiff
    exact (decide_eq_false hiff).symm
  · rw [hb] at hiff
    simp only [true_iff] at hiff
    exact (decide_eq_true hiff).symm

/-- C10: for a metric log whose entry dates are zero-padded `YYYY-MM-DD`
strings, the trailing-window filter implemented as lexicographic string
comparison (`log.split(':')[0] >= start_date`, as used by `health_summary`
and `weekly_trend`) selects exactly the entries whose underlying calendar
date is on or after the window start: the string filter is equivalent to a
true chronological date filter. -/
theorem c10_string_window_eq_date_window (logs : List (PyDate × PyStr)) (start : PyDate)
    (hv : ∀ p ∈ logs, PyDate.valid p.1) (hs : start.valid) :
    (logs.map (fun p => fmtDate p.1 ++ ':' :: p.2)).filter (inWindow (fmtDate start)) =
      (logs.filter (fun p => decide (dateLe start p.1))).map
        (fun p => fmtDate p.1 ++ ':' :: p.2) := by
  rw [List.filter_map]
  congr 1
  apply List.filter_congr
  intro p hp
  exact inWindow_fmtDate start p.1 p.2 (hv p hp) hs

/-- Witness for C10 at a concrete two-entry log: the string filter keeps
the 2024-01-01 entry and drops the 2023-12-25 entry, exactly as the
calendar filter does. -/
theorem c10_string_window_eq_date_window_witness :
    (([(⟨2024, 1, 1⟩, ("500").toList), (⟨2023, 12, 25⟩, ("300").toList)] :
        List (PyDate × PyStr)).map
          (fun p => fmtDate p.1 ++ ':' :: p.2)).filter
        (inWindow (fmtDate ⟨2023, 12, 31⟩)) =
      (([(⟨2024, 1, 1⟩, ("500").toList), (⟨2023, 12, 25⟩, ("300").toList)] :
        List (PyDate × PyStr)).filter
          (fun p => decide (dateLe ⟨2023, 12, 31⟩ p.1))).map
        (fun p => fmtDate p.1 ++ ':' :: p.2) :=
  c10_string_window_eq_date_window _ _ (by decide) (by decide)

/-- Windowed mapM over integer-encoded tokens recovers the values. -/
theorem mapM_tokenInt_encode : ∀ (w : List (PyStr × Int)), (∀ p ∈ w, ':' ∉ p.1) →
    (w.map (fun p => p.1 ++ ':' :: intToChars p.2)).mapM tokenInt = some (w.map Prod.snd)
  | [] => by intro _; rfl
  | p :: rest => by
    intro h
    have h1 : tokenInt (p.1 ++ ':' :: intToChars p.2) = some p.2 := by
      rw [tokenInt, tokenVal_encode _ _ (h p (List.mem_cons_self p rest))
        (colon_not_mem_intToChars p.2)]
      simp [parseInt?_intToChars]
    rw [List.map_cons, List.mapM_cons, h1,
      mapM_tokenInt_encode rest (fun q hq => h q (List.mem_cons_of_mem p hq))]
    rfl

/-- The windowed-token filter on integer-encoded entries is the date
filter on the entries. -/
theorem filter_inWindow_encode (w : List (PyStr × Int)) (start : PyStr)
    (h : ∀ p ∈ w, ':' ∉ p.1 ∧ p.1 ≠ []) :
    (w.map (fun p => p.1 ++ ':' :: intToChars p.2)).filter (inWindow start) =
      (w.filter (fun p => strGe p.1 start)).map
        (fun p => p.1 ++ ':' :: intToChars p.2) := by
  rw [List.filter_map]
  congr 1
  apply List.filter_congr
  intro p hp
  exact inWindow_encode start p.1 (intToChars p.2) (h p hp).1 (h p hp).2

/-- Windowed mapM over tokens carrying raw decimal value strings recovers
the parsed values (the sleep metric). -/
theorem mapM_tokenDec_encodeS : ∀ (w : List (PyStr × PyStr)),
    (∀ p ∈ w, ':' ∉ p.1 ∧ (':' ∉ p.2 ∧ (parseDec? p.2).isSome = true)) →
    (w.map (fun p => p.1 ++ ':' :: p.2)).mapM tokenDec =
      some (w.map (fun p => (parseDec? p.2).getD 0))
  | [] => by intro _; rfl
  | p :: rest => by
    intro h
    obtain ⟨hd, hv, hsome⟩ := h p (List.mem_cons_self p rest)
    have h1 : tokenDec (p.1 ++ ':' :: p.2) = some ((parseDec? p.2).getD 0) := by
      rw [tokenDec, tokenVal_encode _ _ hd hv]
      rcases hq : parseDec? p.2 with _ | ⟨q⟩
      · rw [hq] at hsome
        cases hsome
      · simp [hq]
    rw [List.map_cons, List.mapM_cons, h1,
      mapM_tokenDec_encodeS rest (fun q hq => h q (List.mem_cons_of_mem p hq))]
    rfl

/-- The windowed-token filter on raw-value-encoded entries is the date
filter on the entries. -/
theorem filter_inWindow_encodeS (w : List (PyStr × PyStr)) (start : PyStr)
    (h : ∀ p ∈ w, ':' ∉ p.1 ∧ p.1 ≠ []) :
    (w.map (fun p => p.1 ++ ':' :: p.2)).filter (inWindow start) =
      (w.filter (fun p => strGe p.1 start)).map (fun p => p.1 ++ ':' :: p.2) := by
  rw [List.filter_map]
  congr 1
  apply List.filter_congr
  intro p hp
  exact inWindow_encode start p.1 p.2 (h p hp).1 (h p hp).2

/-- C2: each per-day average of the health summary equals the sum of the
windowed values divided by the number of distinct dates carrying at least
one windowed entry (not by the window length), and equals 0 when no day in
the window has data.  The first part covers the integer-valued averages
(`avg_water`, `avg_stress`) over encoded integer entries, the second the
float-valued `avg_sleep` over entries carrying raw decimal value
strings. -/
theorem c2_avg_per_distinct_day (entries : List (PyStr × Int))
    (sentries : List (PyStr × PyStr)) (start : PyStr)
    (h : ∀ p ∈ entries, ':' ∉ p.1 ∧ p.1 ≠ [])
    (h2 : ∀ p ∈ sentries, (':' ∉ p.1 ∧ p.1 ≠ []) ∧
      (':' ∉ p.2 ∧ (parseDec? p.2).isSome = true)) :
    avgOfInt (entries.map (fun p => p.1 ++ ':' :: intToChars p.2)) start =
      some (if entries.filter (fun p => strGe p.1 start) = [] then 0 else
        (((entries.filter (fun p => strGe p.1 start)).map Prod.snd).sum : ℚ) /
          (((entries.filter (fun p => strGe p.1 start)).map Prod.fst).dedup.length : ℚ))
    ∧ avgOfDec (sentries.map (fun p => p.1 ++ ':' :: p.2)) start =
      some (if sentries.filter (fun p => strGe p.1 start) = [] then 0 else
        ((sentries.filter (fun p => strGe p.1 start)).map
            (fun p => (parseDec? p.2).getD 0)).sum /
          (((sentries.filter (fun p => strGe p.1 start)).map Prod.fst).dedup.length : ℚ)) := by
  constructor
  · have hsum : sumLogsInt (entries.map (fun p => p.1 ++ ':' :: intToChars p.2)) start =
        some ((entries.filter (fun p => strGe p.1 start)).map Prod.snd).sum := by
      rw [sumLogsInt, filter_inWindow_encode entries start h,
        mapM_tokenInt_encode _ (fun p hp => (h p (List.mem_of_mem_filter hp)).1)]
      rfl
    have hdays : daysWithData (entries.map (fun p => p.1 ++ ':' :: intToChars p.2)) start =
        ((entries.filter (fun p => strGe p.1 start)).map Prod.fst).dedup.length := by
      rw [daysWithData, filter_inWindow_encode entries start h, List.map_map]
      congr 2
      apply List.map_congr_left
      intro p hp
      exact tokenDate_encode p.1 (intToChars p.2) (h p (List.mem_of_mem_filter hp)).1
    rw [avgOfInt, hsum, hdays, Option.map_some']
    congr 1
    have hiff : 0 < ((entries.filter (fun p => strGe p.1 start)).map Prod.fst).dedup.length ↔
        ¬ entries.filter (fun p => strGe p.1 start) = [] := by
      rw [List.length_pos, ne_eq, List.dedup_eq_nil, List.map_eq_nil_iff]
    by_cases hcase : entries.filter (fun p => strGe p.1 start) = []
    · rw [hcase]
      simp
    · rw [if_neg hcase, if_pos (hiff.mpr hcase)]
  · have hfst : ∀ p ∈ sentries, ':' ∉ p.1 ∧ p.1 ≠ [] := fun p hp => (h2 p hp).1
    have hsum : sumLogsDec (sentries.map (fun p => p.1 ++ ':' :: p.2)) start =
        some ((sentries.filter (fun p => strGe p.1 start)).map
          (fun p => (parseDec? p.2).getD 0)).sum := by
      rw [sumLogsDec, filter_inWindow_encodeS sentries start hfst,
        mapM_tokenDec_encodeS _ (fun p hp =>
          ⟨(h2 p (List.mem_of_mem_filter hp)).1.1, (h2 p (List.mem_of_mem_filter hp)).2⟩)]
      rfl
    have hdays : daysWithData (sentries.map (fun p => p.1 ++ ':' :: p.2)) start =
        ((sentries.filter (fun p => strGe p.1 start)).map Prod.fst).dedup.length := by
      rw [daysWithData, filter_inWindow_encodeS sentries start hfst, List.map_map]
      congr 2
      apply List.map_congr_left
      intro p hp
      exact tokenDate_encode p.1 p.2 (hfst p (List.mem_of_mem_filter hp)).1
    rw [avgOfDec, hsum, hdays, Option.map_some']
    congr 1
    have hiff : 0 < ((sentries.filter (fun p => strGe p.1 start)).map Prod.fst).dedup.length ↔
        ¬ sentries.filter (fun p => strGe p.1 start) = [] := by
      rw [List.length_pos, ne_eq, List.dedup_eq_nil, List.map_eq_nil_iff]
    by_cases hcase : sentries.filter (fun p => strGe p.1 start) = []
    · rw [hcase]
      simp
    · rw [if_neg hcase, if_pos (hiff.mpr hcase)]

/-- Witness for C2 at the spec worked example plus one sleep entry: water
entries (2024-01-01, 500), (2024-01-01, 700), (2024-01-02, 1000) give
`avg_water_per_day = (1200 + 1000) / 2 = 1100`, and the sleep entry
(2024-01-01, "7.5") gives `avg_sleep_per_day = 7.5`, over a window
starting 2023-12-31. -/
theorem c2_avg_per_distinct_day_witness :
    avgOfInt (([((("2024-01-01").toList), (500 : Int)),
        ((("2024-01-01").toList), (700 : Int)),
        ((("2024-01-02").toList), (1000 : Int))] : List (PyStr × Int)).map
          (fun p => p.1 ++ ':' :: intToChars p.2)) (("2023-12-31").toList) =
      some (1100 : ℚ)
    ∧ avgOfDec (([((("2024-01-01").toList), (("7.5").toList))] :
        List (PyStr × PyStr)).map
          (fun p => p.1 ++ ':' :: p.2)) (("2023-12-31").toList) =
      some ((15 : ℚ)/2) := by
  have hmain := c2_avg_per_distinct_day
    ([((("2024-01-01").toList), (500 : Int)),
      ((("2024-01-01").toList), (700 : Int)),
      ((("2024-01-02").toList), (1000 : Int))] : List (PyStr × Int))
    ([((("2024-01-01").toList), (("7.5").toList))] : List (PyStr × PyStr))
    (("2023-12-31").toList) (by decide) (by decide)
  constructor
  · rw [hmain.1]
    have hf : (([((("2024-01-01").toList), (500 : Int)),
        ((("2024-01-01").toList), (700 : Int)),
        ((("2024-01-02").toList), (1000 : Int))] : List (PyStr × Int)).filter
          (fun p => strGe p.1 (("2023-12-31").toList))) =
        ([((("2024-01-01").toList), (500 : Int)),
        ((("2024-01-01").toList), (700 : Int)),
        ((("2024-01-02").toList), (1000 : Int))] : List (PyStr × Int)) := by decide
    rw [hf]
    have hsum : (([((("2024-01-01").toList), (500 : Int)),
        ((("2024-01-01").toList), (700 : Int)),
        ((("2024-01-02").toList), (1000 : Int))] : List (PyStr × Int)).map Prod.snd).sum =
        (2200 : Int) := by decide
    have hlen : (([((("2024-01-01").toList), (500 : Int)),
        ((("2024-01-01").toList), (700 : Int)),
        ((("2024-01-02").toList), (1000 : Int))] : List (PyStr × Int)).map
          Prod.fst).dedup.length = 2 := by decide
    rw [if_neg (by decide), hsum, hlen]
    norm_num
  · rw [hmain.2]
    have hf : (([((("2024-01-01").toList), (("7.5").toList))] :
        List (PyStr × PyStr)).filter (fun p => strGe p.1 (("2023-12-31").toList))) =
        ([((("2024-01-01").toList), (("7.5").toList))] : List (PyStr × PyStr)) := by decide
    rw [hf]
    have hq : parseDec? ['7', '.', '5'] = some ((15 : ℚ)/2) := by
      simp [parseDec?, parseMantissaExp?, breakAtExp, parseDecCore, splitPy,
        parseNat?, digitsVal, isDigitCh]
      norm_num
    have hlen : (([((("2024-01-01").toList), (("7.5").toList))] :
        List (PyStr × PyStr)).map Prod.fst).dedup.length = 1 := by decide
    rw [if_neg (by decide), hlen]
    simp [hq]

/-- An Option-valued mapM fails as soon as one element fails. -/
theorem mapM_eq_none {α β : Type} (f : α → Option β) :
    ∀ (l : List α) (x : α), x ∈ l → f x = none → l.mapM f = none
  | [], x => by simp
  | a :: rest, x => by
    intro hmem hx
    rw [List.mapM_cons]
    rcases List.mem_cons.mp hmem with h | h
    · rw [← h, hx]
      rfl
    · cases ha : f a with
      | none => rfl
      | some b =>
        rw [mapM_eq_none f rest x h hx]
        rfl

/-- An Option-valued foldl fails as soon as the step fails on one element. -/
theorem foldlM_eq_none {α β : Type} (f : β → α → Option β) (x : α)
    (hx : ∀ m, f m x = none) :
    ∀ (l : List α) (init : β), x ∈ l → l.foldlM f init = none
  | [], _ => by simp
  | a :: rest, init => by
    intro hmem
    rw [List.foldlM_cons]
    rcases List.mem_cons.mp hmem with h | h
    · rw [← h, hx init]
      rfl
    · cases ha : f init a with
      | none => rfl
      | some m =>
        have := foldlM_eq_none f x hx rest m h
        simp [this]

/-- C3 amended: a stored token inside the trailing window whose value
fails to parse makes the whole aggregation fail (in Python, `int()` /
`float()` raises and the command aborts): nothing is skipped and no
skipped-entry count exists.  The first half covers the integer metrics
(water; `dailyCalories` and `dailyStress` are the same function as
`dailyWater`, and `sumLogsInt` is the water/calorie/stress total); the
second half covers the float-valued sleep metric.  A malformed token
outside the window is never parsed, so only windowed tokens can abort. -/
theorem c3_amended_malformed_token_aborts (logs : List PyStr) (start tok : PyStr)
    (hmem : tok ∈ logs) (hwin : inWindow start tok = true) :
    (tokenInt tok = none →
      sumLogsInt logs start = none ∧ avgOfInt logs start = none ∧
      dailyWater logs start = none ∧ weeklyTrendWater logs start = none)
    ∧ (tokenDec tok = none →
      sumLogsDec logs start = none ∧ avgOfDec logs start = none ∧
      dailySleep logs start = none ∧ weeklyTrendSleep logs start = none) := by
  have hfil : tok ∈ logs.filter (inWindow start) := List.mem_filter.mpr ⟨hmem, hwin⟩
  constructor
  · intro htok
    have h1 : sumLogsInt logs start = none := by
      rw [sumLogsInt, mapM_eq_none tokenInt _ tok hfil htok]
      rfl
    have h2 : dailyWater logs start = none := by
      rw [dailyWater, buildDaily]
      exact foldlM_eq_none _ tok (fun m => by simp [hwin, htok]) logs [] hmem
    exact ⟨h1, by rw [avgOfInt, h1]; rfl, h2, by rw [weeklyTrendWater, h2]; rfl⟩
  · intro htok
    have h1 : sumLogsDec logs start = none := by
      rw [sumLogsDec, mapM_eq_none tokenDec _ tok hfil htok]
      rfl
    have h2 : dailySleep logs start = none := by
      rw [dailySleep, buildDaily]
      exact foldlM_eq_none _ tok (fun m => by simp [hwin, htok]) logs [] hmem
    exact ⟨h1, by rw [avgOfDec, h1]; rfl, h2, by rw [weeklyTrendSleep, h2]; rfl⟩

/-- C3 counterexample: with the stored water log
`2024-01-05:500;2024-01-06:abc` and window start `2024-01-01`, the summary
average and the weekly trend both error out (Python raises `ValueError`)
instead of skipping the single malformed token, continuing with the good
token, and surfacing a skipped-entry count. -/
theorem c3_counterexample :
    avgOfInt [("2024-01-05:500").toList, ("2024-01-06:abc").toList]
      (("2024-01-01").toList) = none
    ∧ weeklyTrendWater [("2024-01-05:500").toList, ("2024-01-06:abc").toList]
      (("2024-01-01").toList) = none := by
  constructor
  · decide
  · decide

/-- Witness for the amended C3 at the concrete malformed log. -/
theorem c3_amended_malformed_token_aborts_witness :
    (sumLogsInt [("2024-01-05:500").toList, ("2024-01-06:abc").toList]
        (("2024-01-01").toList) = none
      ∧ avgOfInt [("2024-01-05:500").toList, ("2024-01-06:abc").toList]
        (("2024-01-01").toList) = none
      ∧ dailyWater [("2024-01-05:500").toList, ("2024-01-06:abc").toList]
        (("2024-01-01").toList) = none
      ∧ weeklyTrendWater [("2024-01-05:500").toList, ("2024-01-06:abc").toList]
        (("2024-01-01").toList) = none)
    ∧ (sumLogsDec [("2024-01-05:500").toList, ("2024-01-06:abc").toList]
        (("2024-01-01").toList) = none
      ∧ avgOfDec [("2024-01-05:500").toList, ("2024-01-06:abc").toList]
        (("2024-01-01").toList) = none
      ∧ dailySleep [("2024-01-05:500").toList, ("2024-01-06:abc").toList]
        (("2024-01-01").toList) = none
      ∧ weeklyTrendSleep [("2024-01-05:500").toList, ("2024-01-06:abc").toList]
        (("2024-01-01").toList) = none) :=
  ⟨(c3_amended_malformed_token_aborts _ _ (("2024-01-06:abc").toList)
      (by decide) (by decide)).1 (by decide),
   (c3_amended_malformed_token_aborts _ _ (("2024-01-06:abc").toList)
      (by decide) (by decide)).2 (by decide)⟩

/-! ## Log codec (claim C4)

The spec's §4.1 names `encode_entry` / `decode_entry`; src/main.py has no
decoder function (its readers split tokens piecemeal with `split(':')`),
so the decoder is modelled from the spec's words: the value segment is
parsed at the metric's expected type — numeric (integer or float) for
water/sleep/calories/stress, free text for workout. -/

/-- The value a metric stores in its token's middle segment: an integer
(water, calories, stress), a float (sleep), or free text (workout). -/
inductive LogValue
  | intVal (i : Int)
  | decVal (q : ℚ)
  | textVal (s : PyStr)
deriving DecidableEq

/-- The metric's expected value type, which `decode_entry` parses by. -/
inductive ValueKind
  | intKind
  | decKind
  | textKind
deriving DecidableEq

/-- The kind a stored value belongs to. -/
def LogValue.kind : LogValue → ValueKind
  | .intVal _ => .intKind
  | .decVal _ => .decKind
  | .textVal _ => .textKind

/-- Rendering of a value into its token segment, exactly as the handlers'
f-strings print it: `str(int)`, `str(float)`, or the raw text. -/
def encodeValue : LogValue → PyStr
  | .intVal i => intToChars i
  | .decVal q => decRepr q
  | .textVal s => s

/-- Modelled from the spec: parsing one value segment at the metric's
expected type (§4.1: "numeric for water/sleep/calories/stress, free text
for workout"), with Python's `int()` / `float()` as the numeric parsers. -/
def decodeValue : ValueKind → PyStr → Option LogValue
  | .intKind, v => (parseInt? v).map LogValue.intVal
  | .decKind, v => (parseDec? v).map LogValue.decVal
  | .textKind, v => some (.textVal v)

/-- One structured log entry: a calendar date, the metric's value, and the
optional free-text extra (the calorie handler's meal,
src/main.py line 291). -/
structure LogEntry where
  date : PyDate
  value : LogValue
  extra : Option PyStr
deriving DecidableEq

/-- Validity of a stored value per the spec's data model (§3): a float
value is an actual Python float, i.e. a finite decimal whose denominator
clears the printed power of ten (every float is a finite binary fraction,
so this holds for all of them); a free-text value contains neither the
field separator `:` nor the record separator `;`. -/
def LogValue.wf : LogValue → Prop
  | .intVal _ => True
  | .decVal q => 10 ^ denExp q.den % q.den = 0
  | .textVal s => ':' ∉ s ∧ ';' ∉ s

instance : (v : LogValue) → Decidable v.wf
  | .intVal _ => .isTrue trivial
  | .decVal q => inferInstanceAs (Decidable (10 ^ denExp q.den % q.den = 0))
  | .textVal s => inferInstanceAs (Decidable (':' ∉ s ∧ ';' ∉ s))

/-- Validity of a LogEntry per the spec's data-model invariant (§3): the
date is a real calendar date, the value is well formed, and the free-text
extra, when present, contains neither the field separator `:` nor the
record separator `;`. -/
def LogEntry.wf (e : LogEntry) : Prop :=
  e.date.valid ∧ e.value.wf ∧ ':' ∉ e.extra.getD [] ∧ ';' ∉ e.extra.getD []

instance (e : LogEntry) : Decidable e.wf := by unfold LogEntry.wf; exact inferInstance

/-- Encoding of one entry: the `date:value` or `date:value:extra` token,
exactly the f-string construction of the log handlers
(src/main.py lines 244, 268, 291, 314, 334). -/
def encode_entry (e : LogEntry) : PyStr :=
  fmtDate e.date ++ ':' ::
    (encodeValue e.value ++
      (match e.extra with
       | none => []
       | some x => ':' :: x))

/-- The dash separator is not a year digit. -/
theorem dash_not_mem_pad4 (n : Nat) : '-' ∉ pad4 n := by
  intro h
  have hd : ∀ k, ('-' : Char) ≠ dchar k := by
    intro k he
    have := isDigitCh_dchar k
    rw [← he] at this
    cases this
  simp only [pad4, List.mem_cons, List.not_mem_nil, or_false] at h
  rcases h with h | h | h | h <;> exact hd _ h

/-- The dash separator is not a month or day digit. -/
theorem dash_not_mem_pad2 (n : Nat) : '-' ∉ pad2 n := by
  intro h
  have hd : ∀ k, ('-' : Char) ≠ dchar k := by
    intro k he
    have := isDigitCh_dchar k
    rw [← he] at this
    cases this
  simp only [pad2, List.mem_cons, List.not_mem_nil, or_false] at h
  rcases h with h | h <;> exact hd _ h

/-- Splitting a formatted date on the dash yields its three fields. -/
theorem splitPy_fmtDate (D : PyDate) :
    splitPy (fmtDate D) '-' = [pad4 D.y, pad2 D.m, pad2 D.d] := by
  rw [fmtDate, splitPy_append (pad4 D.y) _ '-', splitPy_append (pad2 D.m) _ '-',
    splitPy_no_sep _ '-' (dash_not_mem_pad4 D.y),
    splitPy_no_sep _ '-' (dash_not_mem_pad2 D.m),
    splitPy_no_sep _ '-' (dash_not_mem_pad2 D.d)]
  rfl

/-- Padded fields pass Python's `isdigit` test. -/
theorem isdigitStr_pad4 (n : Nat) : isdigitStr (pad4 n) = true := by
  simp [isdigitStr, pad4, isDigitCh_dchar]

/-- Padded fields pass Python's `isdigit` test. -/
theorem isdigitStr_pad2 (n : Nat) : isdigitStr (pad2 n) = true := by
  simp [isdigitStr, pad2, isDigitCh_dchar]

/-- Modelled from the spec: the date-segment check of `decode_entry`
(§4.1, "fails with `MalformedEntry` if the date segment is not a valid
calendar date"); src/main.py has no date decoder, so the check follows the
spec's words: a zero-padded `YYYY-MM-DD` string with in-range month and
day. -/
def parseDateStr (cs : PyStr) : Option PyDate :=
  match splitPy cs '-' with
  | [ys, ms, ds] =>
    if ys.length = 4 ∧ ms.length = 2 ∧ ds.length = 2
        ∧ isdigitStr ys = true ∧ isdigitStr ms = true ∧ isdigitStr ds = true
        ∧ 1 ≤ digitsVal ms ∧ digitsVal ms ≤ 12 ∧ 1 ≤ digitsVal ds ∧ digitsVal ds ≤ 31 then
      some ⟨digitsVal ys, digitsVal ms, digitsVal ds⟩
    else none
  | _ => none

/-- Parsing a formatted valid date recovers the date. -/
theorem parseDateStr_fmtDate (D : PyDate) (hD : D.valid) :
    parseDateStr (fmtDate D) = some D := by
  obtain ⟨hy, hm1, hm2, hd1, hd2⟩ := hD
  rw [parseDateStr, splitPy_fmtDate D]
  dsimp only
  rw [if_pos]
  · rw [digitsVal_pad4 _ (by omega), digitsVal_pad2 _ (by omega),
      digitsVal_pad2 _ (by omega)]
  · refine ⟨rfl, rfl, rfl, isdigitStr_pad4 _, isdigitStr_pad2 _, isdigitStr_pad2 _, ?_⟩
    rw [digitsVal_pad2 _ (by omega), digitsVal_pad2 _ (by omega)]
    omega

/-- Folding up `natToChars` recovers the number. -/
theorem digitsVal_natToChars (n : Nat) : digitsVal (natToChars n) = n :=
  digitsVal_natToCharsAux (n + 1) n (by omega)

/-- Printed natural numbers are nonempty. -/
theorem natToChars_ne_nil (n : Nat) : natToChars n ≠ [] :=
  natToCharsAux_ne_nil (n + 1) n (by omega)

/-- Printed natural numbers consist of digits. -/
theorem natToChars_all_digits (n : Nat) : (natToChars n).all isDigitCh = true :=
  natToCharsAux_all_digits (n + 1) n (by omega)

/-- The decimal dot is not a digit character. -/
theorem dot_not_mem_natToChars (n : Nat) : '.' ∉ natToChars n :=
  not_mem_natToChars '.' n (by decide)

/-- The field separator is not a digit character. -/
theorem colon_not_mem_natToChars (n : Nat) : ':' ∉ natToChars n :=
  not_mem_natToChars ':' n (by decide)

/-- Left-padding a digit string with zeros keeps its numeric value. -/
theorem digitsVal_zeros_append (j : Nat) (cs : PyStr) :
    digitsVal (List.replicate j '0' ++ cs) = digitsVal cs := by
  have h0 : List.foldl (fun a c => a * 10 + (c.toNat - 48)) 0
      (List.replicate j '0') = 0 := by
    induction j with
    | zero => rfl
    | succ i ih =>
      have h00 : (0 : Nat) * 10 + (('0' : Char).toNat - 48) = 0 := by decide
      rw [List.replicate_succ, List.foldl_cons, h00]
      exact ih
  rw [digitsVal, digitsVal, List.foldl_append, h0]

/-- Numeric value of a zero-padded digit string. -/
theorem digitsVal_padZeros (k : Nat) (cs : PyStr) :
    digitsVal (padZeros k cs) = digitsVal cs := by
  rw [padZeros, digitsVal_zeros_append]

/-- Padding a string no longer than `k` yields exactly width `k`. -/
theorem padZeros_length (k : Nat) (cs : PyStr) (h : cs.length ≤ k) :
    (padZeros k cs).length = k := by
  rw [padZeros, List.length_append, List.length_replicate]
  omega

/-- Zero-padded digit strings consist of digits. -/
theorem padZeros_all_digits (k : Nat) (cs : PyStr) (h : cs.all isDigitCh = true) :
    (padZeros k cs).all isDigitCh = true := by
  rw [padZeros, List.all_append, h]
  have h1 : (List.replicate (k - cs.length) '0').all isDigitCh = true := by
    rw [List.all_eq_true]
    intro c hc
    rw [List.eq_of_mem_replicate hc]
    rfl
  rw [h1]
  rfl

/-- No dot among zero-padded digits. -/
theorem dot_not_mem_padZeros (k : Nat) (cs : PyStr) (h : '.' ∉ cs) :
    '.' ∉ padZeros k cs := by
  intro hm
  rw [padZeros] at hm
  rcases List.mem_append.mp hm with hm | hm
  · exact absurd (List.eq_of_mem_replicate hm) (by decide)
  · exact h hm

/-- Digit-length bound: a number below `10 ^ k` prints in at most `k`
digits, for `k ≥ 1`. -/
theorem natToCharsAux_length_le : ∀ (fuel n k : Nat), n < fuel → 1 ≤ k →
    n < 10 ^ k → (natToCharsAux fuel n).length ≤ k
  | 0, _, _ => by omega
  | fuel + 1, n, k => by
    intro hf hk hn
    unfold natToCharsAux
    split
    · next => simpa using hk
    · next h10 =>
      have hk2 : 2 ≤ k := by
        rcases Nat.lt_or_ge k 2 with hlt | hge
        · have hk1 : k = 1 := by omega
          rw [hk1, pow_one] at hn
          omega
        · exact hge
      have hpow : 10 ^ k = 10 * 10 ^ (k - 1) := by
        cases k with
        | zero => omega
        | succ k2 =>
          rw [pow_succ, Nat.succ_sub_one]
          ring
      have hlt2 : n / 10 < 10 ^ (k - 1) := by
        rw [hpow] at hn
        omega
      have ih := natToCharsAux_length_le fuel (n / 10) (k - 1)
        (by omega) (by omega) hlt2
      rw [List.length_append, List.length_singleton]
      omega

/-- Digit-length bound for `natToChars`. -/
theorem natToChars_length_le (n k : Nat) (hk : 1 ≤ k) (hn : n < 10 ^ k) :
    (natToChars n).length ≤ k :=
  natToCharsAux_length_le (n + 1) n k (by omega) hk hn

/-- `breakAtExp` leaves a string free of `e`/`E` whole. -/
theorem breakAtExp_no_e : ∀ (cs : PyStr), (∀ c ∈ cs, c ≠ 'e' ∧ c ≠ 'E') →
    breakAtExp cs = (cs, none)
  | [] => by intro h; rfl
  | c :: t => by
    intro h
    have hc := h c (List.mem_cons_self ..)
    have ht := breakAtExp_no_e t (fun d hd => h d (List.mem_cons_of_mem _ hd))
    rw [breakAtExp, if_neg (by simp [hc.1, hc.2]), ht]

/-- A mantissa without exponent marker parses as a plain decimal. -/
theorem parseMantissaExp?_no_e (cs : PyStr) (h : ∀ c ∈ cs, c ≠ 'e' ∧ c ≠ 'E') :
    parseMantissaExp? cs = parseDecCore cs := by
  rw [parseMantissaExp?, breakAtExp_no_e cs h]

/-- `parseDec?` on a string that does not begin with a sign falls through
to the unsigned mantissa case. -/
theorem parseDec?_not_sign (c : Char) (t : PyStr) (h1 : c ≠ '-') (h2 : c ≠ '+') :
    parseDec? (c :: t) = parseMantissaExp? (c :: t) := by
  unfold parseDec?
  split
  · next heq =>
    injection heq with ha _
    exact absurd ha h2
  · next heq =>
    injection heq with ha _
    exact absurd ha h1
  · rfl

/-- Parsing `digits.0`, the printed form of an integral float. -/
theorem parseMantissaExp?_int_dot_zero (w : Nat) :
    parseMantissaExp? (natToChars w ++ ['.', '0']) = some ((w : ℚ)) := by
  have hchars : ∀ c ∈ natToChars w ++ ['.', '0'], c ≠ 'e' ∧ c ≠ 'E' := by
    intro c hc
    rcases List.mem_append.mp hc with hc | hc
    · have hd := mem_natToChars w c hc
      constructor <;> intro he <;> rw [he] at hd <;> exact absurd hd (by decide)
    · rcases List.mem_cons.mp hc with hc | hc
      · subst hc
        exact ⟨by decide, by decide⟩
      · rcases List.mem_cons.mp hc with hc | hc
        · subst hc
          exact ⟨by decide, by decide⟩
        · cases hc
  have hsplit : splitPy (natToChars w ++ ['.', '0']) '.' =
      [natToChars w, ['0']] := by
    have he : (['.', '0'] : PyStr) = '.' :: ['0'] := rfl
    rw [he, splitPy_append _ _ '.',
      splitPy_no_sep _ '.' (dot_not_mem_natToChars w),
      splitPy_no_sep _ '.' (by decide)]
    rfl
  rw [parseMantissaExp?_no_e _ hchars, parseDecCore, hsplit]
  dsimp only
  rw [if_pos]
  · rw [digitsVal_natToChars]
    have h0 : digitsVal ['0'] = 0 := by decide
    rw [h0]
    norm_num
  · have h0 : isDigitCh '0' = true := by decide
    simp [natToChars_ne_nil w, natToChars_all_digits w, h0]

/-- Parsing `digits.digits` with the fraction zero-padded to `k` places. -/
theorem parseMantissaExp?_int_frac (w f k : Nat) (hk : 1 ≤ k) (hf : f < 10 ^ k) :
    parseMantissaExp? (natToChars w ++ '.' :: padZeros k (natToChars f)) =
      some ((w : ℚ) + (f : ℚ) / (10 : ℚ) ^ k) := by
  have hfd : '.' ∉ padZeros k (natToChars f) :=
    dot_not_mem_padZeros k _ (dot_not_mem_natToChars f)
  have hall : (padZeros k (natToChars f)).all isDigitCh = true :=
    padZeros_all_digits k _ (natToChars_all_digits f)
  have hchars : ∀ c ∈ natToChars w ++ '.' :: padZeros k (natToChars f),
      c ≠ 'e' ∧ c ≠ 'E' := by
    intro c hc
    rcases List.mem_append.mp hc with hc | hc
    · have hd := mem_natToChars w c hc
      constructor <;> intro he <;> rw [he] at hd <;> exact absurd hd (by decide)
    · rcases List.mem_cons.mp hc with hc | hc
      · subst hc
        exact ⟨by decide, by decide⟩
      · have hd : isDigitCh c = true := by
          rw [List.all_eq_true] at hall
          exact hall c hc
        constructor <;> intro he <;> rw [he] at hd <;> exact absurd hd (by decide)
  have hsplit : splitPy (natToChars w ++ '.' :: padZeros k (natToChars f)) '.' =
      [natToChars w, padZeros k (natToChars f)] := by
    rw [splitPy_append _ _ '.',
      splitPy_no_sep _ '.' (dot_not_mem_natToChars w),
      splitPy_no_sep _ '.' hfd]
    rfl
  have hlen : (padZeros k (natToChars f)).length = k :=
    padZeros_length k _ (natToChars_length_le f k hk hf)
  rw [parseMantissaExp?_no_e _ hchars, parseDecCore, hsplit]
  dsimp only
  rw [if_pos]
  · rw [digitsVal_natToChars, digitsVal_padZeros, digitsVal_natToChars, hlen]
  · simp [natToChars_ne_nil w, natToChars_all_digits w, hall]

/-- `float(str(x)) = x`: parsing the printed form of a finite decimal
recovers the value, provided the denominator clears the printed power of
ten (which `LogValue.wf` guarantees, and which holds for every value a
Python float can take). -/
theorem parseDec?_decRepr (q : ℚ) (hq : 10 ^ denExp q.den % q.den = 0) :
    parseDec? (decRepr q) = some q := by
  have hdvd : q.den ∣ 10 ^ denExp q.den := Nat.dvd_of_mod_eq_zero hq
  have hdpos : 0 < q.den := q.pos
  have hnumq : ((q.num : ℚ)) / ((q.den : ℚ)) = q := Rat.num_div_den q
  by_cases hk0 : denExp q.den = 0
  · -- the denominator is 1 and the value integral: the `.0` form
    have hden1 : q.den = 1 := by
      rw [hk0, pow_zero] at hdvd
      exact Nat.dvd_one.mp hdvd
    have hm : q.num.natAbs * (10 ^ denExp q.den / q.den) = q.num.natAbs := by
      rw [hk0, hden1, pow_zero]
      simp
    have hrepr : decRepr q = (if q.num < 0 then ['-'] else []) ++
        natToChars q.num.natAbs ++ ['.', '0'] := by
      simp only [decRepr]
      rw [if_pos hk0, hm]
    rw [hrepr]
    by_cases hneg : q.num < 0
    · rw [if_pos hneg, List.singleton_append, List.cons_append]
      have hswap : parseDec? ('-' :: (natToChars q.num.natAbs ++ ['.', '0'])) =
          (parseMantissaExp? (natToChars q.num.natAbs ++ ['.', '0'])).map
            (fun x => -x) := rfl
      rw [hswap, parseMantissaExp?_int_dot_zero]
      have habs : ((q.num.natAbs : ℚ)) = -((q.num : ℚ)) := by
        rw [Int.cast_natAbs]
        exact_mod_cast abs_of_neg hneg
      simp only [Option.map_some']
      congr 1
      rw [habs, neg_neg, ← hnumq, hden1]
      norm_num
    · rw [if_neg hneg, List.nil_append]
      cases hchars : natToChars q.num.natAbs with
      | nil => exact absurd hchars (natToChars_ne_nil _)
      | cons c t =>
        have hcd : isDigitCh c = true := by
          apply mem_natToChars q.num.natAbs c
          rw [hchars]
          exact List.mem_cons_self ..
        have hc1 : c ≠ '-' := by
          intro he
          rw [he] at hcd
          exact absurd hcd (by decide)
        have hc2 : c ≠ '+' := by
          intro he
          rw [he] at hcd
          exact absurd hcd (by decide)
        rw [List.cons_append, parseDec?_not_sign _ _ hc1 hc2,
          ← List.cons_append, ← hchars, parseMantissaExp?_int_dot_zero]
        have habs : ((q.num.natAbs : ℚ)) = ((q.num : ℚ)) := by
          rw [Int.cast_natAbs]
          exact_mod_cast abs_of_nonneg (not_lt.mp hneg)
        rw [habs, ← hnumq, hden1]
        norm_num
  · -- at least one decimal place: the `whole.frac` form
    have hk1 : 1 ≤ denExp q.den := Nat.one_le_iff_ne_zero.mpr hk0
    have hpow0 : (0 : ℕ) < 10 ^ denExp q.den := pow_pos (by norm_num) _
    have hfraclt : q.num.natAbs * (10 ^ denExp q.den / q.den) % 10 ^ denExp q.den
        < 10 ^ denExp q.den := Nat.mod_lt _ hpow0
    have hrepr : decRepr q = (if q.num < 0 then ['-'] else []) ++
        natToChars (q.num.natAbs * (10 ^ denExp q.den / q.den) / 10 ^ denExp q.den) ++
        '.' :: padZeros (denExp q.den)
          (natToChars (q.num.natAbs * (10 ^ denExp q.den / q.den) % 10 ^ denExp q.den)) := by
      simp only [decRepr]
      rw [if_neg hk0]
    have hbody := parseMantissaExp?_int_frac
      (q.num.natAbs * (10 ^ denExp q.den / q.den) / 10 ^ denExp q.den)
      (q.num.natAbs * (10 ^ denExp q.den / q.den) % 10 ^ denExp q.den)
      (denExp q.den) hk1 hfraclt
    have hmden : (q.num.natAbs * (10 ^ denExp q.den / q.den)) * q.den =
        q.num.natAbs * 10 ^ denExp q.den := by
      rw [mul_assoc, Nat.div_mul_cancel hdvd]
    have h10 : ((10 : ℚ)) ^ denExp q.den ≠ 0 := by positivity
    have hdenQ : ((q.den : ℚ)) ≠ 0 := by
      exact_mod_cast hdpos.ne'
    have hsplitnm : 10 ^ denExp q.den *
        (q.num.natAbs * (10 ^ denExp q.den / q.den) / 10 ^ denExp q.den) +
        q.num.natAbs * (10 ^ denExp q.den / q.den) % 10 ^ denExp q.den =
        q.num.natAbs * (10 ^ denExp q.den / q.den) :=
      Nat.div_add_mod _ _
    have hval : ((q.num.natAbs * (10 ^ denExp q.den / q.den) / 10 ^ denExp q.den : ℕ) : ℚ) +
        ((q.num.natAbs * (10 ^ denExp q.den / q.den) % 10 ^ denExp q.den : ℕ) : ℚ) /
          (10 : ℚ) ^ denExp q.den =
        ((q.num.natAbs : ℚ)) / ((q.den : ℚ)) := by
      have hA : ((q.num.natAbs * (10 ^ denExp q.den / q.den) / 10 ^ denExp q.den : ℕ) : ℚ) +
          ((q.num.natAbs * (10 ^ denExp q.den / q.den) % 10 ^ denExp q.den : ℕ) : ℚ) /
            (10 : ℚ) ^ denExp q.den =
          ((q.num.natAbs * (10 ^ denExp q.den / q.den) : ℕ) : ℚ) /
            (10 : ℚ) ^ denExp q.den := by
        have hc : ((q.num.natAbs * (10 ^ denExp q.den / q.den) : ℕ) : ℚ) =
            (10 : ℚ) ^ denExp q.den *
              ((q.num.natAbs * (10 ^ denExp q.den / q.den) / 10 ^ denExp q.den : ℕ) : ℚ) +
            ((q.num.natAbs * (10 ^ denExp q.den / q.den) % 10 ^ denExp q.den : ℕ) : ℚ) := by
          exact_mod_cast hsplitnm.symm
        rw [hc]
        field_simp
        ring
      have hB : ((q.num.natAbs * (10 ^ denExp q.den / q.den) : ℕ) : ℚ) /
            (10 : ℚ) ^ denExp q.den =
          ((q.num.natAbs : ℚ)) / ((q.den : ℚ)) := by
        rw [div_eq_div_iff h10 hdenQ]
        exact_mod_cast hmden
      rw [hA, hB]
    rw [hrepr]
    by_cases hneg : q.num < 0
    · rw [if_pos hneg, List.singleton_append, List.cons_append]
      have hswap : parseDec? ('-' ::
          (natToChars (q.num.natAbs * (10 ^ denExp q.den / q.den) / 10 ^ denExp q.den) ++
            '.' :: padZeros (denExp q.den)
              (natToChars (q.num.natAbs * (10 ^ denExp q.den / q.den) % 10 ^ denExp q.den)))) =
          (parseMantissaExp?
            (natToChars (q.num.natAbs * (10 ^ denExp q.den / q.den) / 10 ^ denExp q.den) ++
              '.' :: padZeros (denExp q.den)
                (natToChars (q.num.natAbs * (10 ^ denExp q.den / q.den) % 10 ^ denExp q.den)))).map
            (fun x => -x) := rfl
      rw [hswap, hbody]
      simp only [Option.map_some']
      congr 1
      have habs : ((q.num.natAbs : ℚ)) = -((q.num : ℚ)) := by
        rw [Int.cast_natAbs]
        exact_mod_cast abs_of_neg hneg
      rw [hval, habs, neg_div, neg_neg, hnumq]
    · rw [if_neg hneg, List.nil_append]
      cases hchars : natToChars
          (q.num.natAbs * (10 ^ denExp q.den / q.den) / 10 ^ denExp q.den) with
      | nil => exact absurd hchars (natToChars_ne_nil _)
      | cons c t =>
        have hcd : isDigitCh c = true := by
          apply mem_natToChars _ c
          rw [hchars]
          exact List.mem_cons_self ..
        have hc1 : c ≠ '-' := by
          intro he
          rw [he] at hcd
          exact absurd hcd (by decide)
        have hc2 : c ≠ '+' := by
          intro he
          rw [he] at hcd
          exact absurd hcd (by decide)
        have habs : ((q.num.natAbs : ℚ)) = ((q.num : ℚ)) := by
          rw [Int.cast_natAbs]
          exact_mod_cast abs_of_nonneg (not_lt.mp hneg)
        rw [List.cons_append, parseDec?_not_sign _ _ hc1 hc2,
          ← List.cons_append, ← hchars, hbody, hval, habs, hnumq]

/-- The printed form of a float consists of a sign, digits and a dot: any
other character is absent from it. -/
theorem not_mem_decRepr (c : Char) (q : ℚ) (h1 : isDigitCh c = false)
    (h2 : c ≠ '-') (h3 : c ≠ '.') : c ∉ decRepr q := by
  intro h
  simp only [decRepr] at h
  have hsign : c ∉ (if q.num < 0 then (['-'] : PyStr) else []) := by
    split
    · simp [h2]
    · simp
  have hnd : ∀ n, c ∉ natToChars n := fun n => not_mem_natToChars c n h1
  split at h
  · rcases List.mem_append.mp h with h | h
    · rcases List.mem_append.mp h with h | h
      · exact hsign h
      · exact hnd _ h
    · rcases List.mem_cons.mp h with h | h
      · exact h3 h
      · rcases List.mem_cons.mp h with h | h
        · rw [h] at h1
          exact absurd h1 (by decide)
        · cases h
  · rcases List.mem_append.mp h with h | h
    · rcases List.mem_append.mp h with h | h
      · exact hsign h
      · exact hnd _ h
    · rcases List.mem_cons.mp h with h | h
      · exact h3 h
      · rw [padZeros] at h
        rcases List.mem_append.mp h with h | h
        · rw [List.eq_of_mem_replicate h] at h1
          exact absurd h1 (by decide)
        · exact hnd _ h

/-- The field separator never occurs in a printed float. -/
theorem colon_not_mem_decRepr (q : ℚ) : ':' ∉ decRepr q :=
  not_mem_decRepr ':' q (by decide) (by decide) (by decide)

/-- A well-formed rendered value never contains the field separator. -/
theorem colon_not_mem_encodeValue (v : LogValue) (h : v.wf) :
    ':' ∉ encodeValue v := by
  cases v with
  | intVal i => exact colon_not_mem_intToChars i
  | decVal q => exact colon_not_mem_decRepr q
  | textVal s => exact h.1

/-- Decoding a rendered value at its own kind recovers the value. -/
theorem decodeValue_encodeValue (v : LogValue) (h : v.wf) :
    decodeValue v.kind (encodeValue v) = some v := by
  cases v with
  | intVal i =>
    simp only [LogValue.kind, encodeValue, decodeValue, parseInt?_intToChars]
    rfl
  | decVal q =>
    simp only [LogValue.kind, encodeValue, decodeValue]
    rw [parseDec?_decRepr q h]
    rfl
  | textVal s => rfl

/-- Modelled from the spec: `decode_entry` splits the token on `:` (§3:
"Encoding token: `date:value` or `date:value:extra`"; src/main.py's readers
use `log.split(':')` piecemeal and never reassemble an entry), parsing the
value segment at the metric's expected `kind` and failing with
`MalformedEntry` (`none`) when the date segment is not a valid calendar
date or the value segment is not parseable at that kind. -/
def decode_entry (kind : ValueKind) (tok : PyStr) : Option LogEntry :=
  match splitPy tok ':' with
  | [d, v] =>
    match parseDateStr d, decodeValue kind v with
    | some D, some val => some ⟨D, val, none⟩
    | _, _ => none
  | [d, v, x] =>
    match parseDateStr d, decodeValue kind v with
    | some D, some val => some ⟨D, val, some x⟩
    | _, _ => none
  | _ => none

/-- C4: decoding an encoded valid LogEntry at its metric's expected value
type yields the entry back unchanged:
`decode_entry e.value.kind (encode_entry e) = e`. -/
theorem c4_decode_encode_roundtrip (e : LogEntry) (h : e.wf) :
    decode_entry e.value.kind (encode_entry e) = some e := by
  obtain ⟨hD, hv, hx1, hx2⟩ := h
  obtain ⟨D, v, ex⟩ := e
  cases ex with
  | none =>
    simp only [encode_entry, List.append_nil]
    rw [decode_entry, splitPy_token _ _ (colon_not_mem_fmtDate D),
      splitPy_no_sep _ ':' (colon_not_mem_encodeValue v hv)]
    dsimp only
    rw [parseDateStr_fmtDate D hD, decodeValue_encodeValue v hv]
  | some x =>
    simp only [Option.getD_some] at hx1 hx2
    simp only [encode_entry]
    rw [decode_entry, splitPy_token _ _ (colon_not_mem_fmtDate D),
      splitPy_append (encodeValue v) x ':',
      splitPy_no_sep _ ':' (colon_not_mem_encodeValue v hv),
      splitPy_no_sep _ ':' hx1]
    simp only [List.singleton_append]
    rw [parseDateStr_fmtDate D hD, decodeValue_encodeValue v hv]

/-- Witness for C4: an integer calorie entry with its meal text, a float
sleep entry, and a free-text workout entry all round-trip through the
token codec. -/
theorem c4_decode_encode_roundtrip_witness :
    decode_entry .intKind
        (encode_entry ⟨⟨2024, 1, 1⟩, .intVal 500, some (("club sandwich").toList)⟩) =
      some ⟨⟨2024, 1, 1⟩, .intVal 500, some (("club sandwich").toList)⟩
    ∧ decode_entry .decKind
        (encode_entry ⟨⟨2024, 1, 2⟩, .decVal (Rat.mk' 15 2), none⟩) =
      some ⟨⟨2024, 1, 2⟩, .decVal (Rat.mk' 15 2), none⟩
    ∧ decode_entry .textKind
        (encode_entry ⟨⟨2024, 1, 3⟩, .textVal (("yoga").toList), none⟩) =
      some ⟨⟨2024, 1, 3⟩, .textVal (("yoga").toList), none⟩ :=
  ⟨c4_decode_encode_roundtrip
      ⟨⟨2024, 1, 1⟩, .intVal 500, some (("club sandwich").toList)⟩ (by decide),
   c4_decode_encode_roundtrip ⟨⟨2024, 1, 2⟩, .decVal (Rat.mk' 15 2), none⟩ (by decide),
   c4_decode_encode_roundtrip ⟨⟨2024, 1, 3⟩, .textVal (("yoga").toList), none⟩ (by decide)⟩

/-! ## Append-only log updates (claim C5) and missing-profile rejection
(claim C8) -/

/-- Appending one separator-free nonempty entry token to a stored log cell
extends its entry list by exactly that token at the end: prior entries are
kept verbatim and in order, and same-date duplicates are retained. -/
theorem logEntries_appendLog (old e : PyStr) (hsep : ';' ∉ e) (hne : e ≠ []) :
    logEntries (appendLog old e) = logEntries old ++ [e] := by
  have he : logEntries e = [e] := by
    rw [logEntries, splitPy_no_sep e ';' hsep]
    cases e with
    | nil => exact absurd rfl hne
    | cons c t => rfl
  unfold appendLog
  split
  · next h =>
    rw [List.isEmpty_iff.mp h]
    rw [he]
    rfl
  · rw [logEntries, splitPy_append old e ';', List.filter_append]
    rw [logEntries] at he ⊢
    rw [he]

/-- The record separator is not a digit character. -/
theorem semicolon_not_mem_natToChars (n : Nat) : ';' ∉ natToChars n :=
  not_mem_natToChars ';' n (by decide)

/-- The printed form of a float consists of a sign, digits and a dot,
never the record separator. -/
theorem semicolon_not_mem_decRepr (q : ℚ) : ';' ∉ decRepr q := by
  intro h
  simp only [decRepr] at h
  have hsign : ';' ∉ (if q.num < 0 then (['-'] : PyStr) else []) := by
    split <;> decide
  split at h
  · rcases List.mem_append.mp h with h | h
    · rcases List.mem_append.mp h with h | h
      · exact hsign h
      · exact semicolon_not_mem_natToChars _ h
    · exact absurd h (by decide)
  · rcases List.mem_append.mp h with h | h
    · rcases List.mem_append.mp h with h | h
      · exact hsign h
      · exact semicolon_not_mem_natToChars _ h
    · rcases List.mem_cons.mp h with h | h
      · cases h
      · rw [padZeros] at h
        rcases List.mem_append.mp h with h | h
        · have := List.eq_of_mem_replicate h
          cases this
        · exact semicolon_not_mem_natToChars _ h

/-- A token built from separator-free pieces is separator-free. -/
theorem semicolon_not_mem_encode (d rest : PyStr) (hd : ';' ∉ d) (hr : ';' ∉ rest) :
    ';' ∉ d ++ ':' :: rest := by
  intro h
  rcases List.mem_append.mp h with h | h
  · exact hd h
  · rcases List.mem_cons.mp h with h | h
    · cases h
    · exact hr h

/-- After writing a record for a present user id, looking the id up reads
the written record back. -/
theorem getUser_setUser : ∀ (st : Store) (uid : Nat) (r2 : UserRecord),
    (getUser st uid).isSome = true → getUser (setUser st uid r2) uid = some r2
  | [], _, _ => by intro h; cases h
  | p :: rest, uid, r2 => by
    intro h
    cases hb : (p.1 == uid) with
    | true =>
      rw [setUser, List.map_cons]
      simp only [hb, if_true]
      rw [getUser, List.find?_cons_of_pos _ (by simpa using hb)]
      rfl
    | false =>
      have hrec : (getUser rest uid).isSome = true := by
        rw [getUser, List.find?_cons_of_neg _ (by simp [hb])] at h
        exact h
      have ih := getUser_setUser rest uid r2 hrec
      rw [setUser, List.map_cons]
      simp only [hb, if_false]
      rw [getUser, List.find?_cons_of_neg _ (by simp [hb])]
      rw [getUser] at ih
      exact ih

/-- A freshly profiled user as every later command sees it: `/profile`
writes empty strings into all optional cells and `pd.read_csv` turns the
empty CSV cells into NaN, i.e. `none`. -/
def freshRecord : UserRecord :=
  ⟨("ann").toList, 70, 175, ("fitness").toList, [], none, [], [],
   none, none, none, none, none⟩

/-- A one-row store holding only the freshly profiled user 7. -/
def freshStore : Store := [(7, freshRecord)]

/-- Counterexample to C5: the very first append after `/profile`.  The
fresh profile row's empty log cells read back from the CSV as NaN, so
`/log_water 250` for the freshly profiled user 7 raises TypeError at the
append expression `water_log + f";{log_entry}"` (src/main.py line 245,
NaN is truthy): the command sends no reply and writes nothing — the
stored log does not end with the newly appended entry, which was never
persisted at all. -/
theorem c5_counterexample :
    log_water freshStore 7 [("250").toList] (("2024-01-02").toList) =
      (freshStore, none) := by
  rfl

/-- C5 (amended): every metric-log append command on an existing user
record whose target log cell holds an actual string leaves every
previously stored entry of that log unchanged and in the same relative
order, appends the new entry last, and never merges same-date entries
(the log is a list and the update is a pure append).  A log cell that was
never written since profile creation holds NaN instead and makes the
command raise before writing (see the counterexample).  One conjunct per
command; the new entry token is the handler's `f"{today}:{value}"`
string. -/
theorem c5_append_only (st : Store) (uid : Nat) (r : UserRecord) (today : PyStr)
    (hu : getUser st uid = some r) (htoday : ';' ∉ today) :
    (∀ a args cell, isdigitStr a = true → r.water_log = some cell →
      getUser (log_water st uid (a :: args) today).1 uid =
        some { r with
          water_log := some (appendLog cell (today ++ ':' :: natToChars (digitsVal a))) } ∧
      logEntries (appendLog cell (today ++ ':' :: natToChars (digitsVal a))) =
        logEntries cell ++ [today ++ ':' :: natToChars (digitsVal a)])
    ∧ (∀ a args q cell, isdigitStr (removeDots a) = true → parseDec? a = some q →
      r.sleep_log = some cell →
      getUser (log_sleep st uid (a :: args) today).1 uid =
        some { r with
          sleep_log := some (appendLog cell (today ++ ':' :: decRepr q)) } ∧
      logEntries (appendLog cell (today ++ ':' :: decRepr q)) =
        logEntries cell ++ [today ++ ':' :: decRepr q])
    ∧ (∀ a b args cell, isdigitStr a = true → ';' ∉ joinSp (b :: args) →
      r.calorie_log = some cell →
      getUser (log_calories st uid (a :: b :: args) today).1 uid =
        some { r with
          calorie_log := some (appendLog cell
            (today ++ ':' :: natToChars (digitsVal a) ++ ':' :: joinSp (b :: args))) } ∧
      logEntries (appendLog cell
          (today ++ ':' :: natToChars (digitsVal a) ++ ':' :: joinSp (b :: args))) =
        logEntries cell ++
          [today ++ ':' :: natToChars (digitsVal a) ++ ':' :: joinSp (b :: args)])
    ∧ (∀ args cell, (joinSp args).isEmpty = false → ';' ∉ joinSp args →
      r.workout_log = some cell →
      getUser (log_workout st uid args today).1 uid =
        some { r with
          workout_log := some (appendLog cell (today ++ ':' :: joinSp args)) } ∧
      logEntries (appendLog cell (today ++ ':' :: joinSp args)) =
        logEntries cell ++ [today ++ ':' :: joinSp args])
    ∧ (∀ a args cell, isdigitStr a = true → 1 ≤ digitsVal a → digitsVal a ≤ 5 →
      r.stress_log = some cell →
      getUser (log_stress st uid (a :: args) today).1 uid =
        some { r with
          stress_log := some (appendLog cell (today ++ ':' :: natToChars (digitsVal a))) } ∧
      logEntries (appendLog cell (today ++ ':' :: natToChars (digitsVal a))) =
        logEntries cell ++ [today ++ ':' :: natToChars (digitsVal a)]) := by
  have hsome : (getUser st uid).isSome = true := by rw [hu]; rfl
  refine ⟨?_, ?_, ?_, ?_, ?_⟩
  · intro a args cell ha hc
    constructor
    · rw [log_water]
      simp only [ha, Bool.not_true, Bool.false_eq_true, if_false, hu, hc]
      cases todayTotal (appendLog cell (today ++ ':' :: natToChars (digitsVal a))) today with
      | none => exact getUser_setUser st uid _ hsome
      | some t => exact getUser_setUser st uid _ hsome
    · exact logEntries_appendLog _ _
        (semicolon_not_mem_encode today _ htoday (semicolon_not_mem_natToChars _))
        (encode_ne_nil today _)
  · intro a args q cell ha hq hc
    constructor
    · rw [log_sleep]
      simp only [ha, Bool.not_true, Bool.false_eq_true, if_false, hq, hu, hc]
      exact getUser_setUser st uid _ hsome
    · exact logEntries_appendLog _ _
        (semicolon_not_mem_encode today _ htoday (semicolon_not_mem_decRepr _))
        (encode_ne_nil today _)
  · intro a b args cell ha hm hc
    constructor
    · rw [log_calories]
      simp only [ha, Bool.not_true, Bool.false_eq_true, if_false, hu, hc]
      case' x => simp
      cases todayTotal (appendLog cell
          (today ++ ':' :: natToChars (digitsVal a) ++ ':' :: joinSp (b :: args))) today with
      | none => exact getUser_setUser st uid _ hsome
      | some t => exact getUser_setUser st uid _ hsome
    · exact logEntries_appendLog _ _
        (semicolon_not_mem_encode _ _
          (semicolon_not_mem_encode today _ htoday (semicolon_not_mem_natToChars _)) hm)
        (encode_ne_nil _ _)
  · intro args cell hne hm hc
    constructor
    · rw [log_workout]
      simp only [hne, Bool.false_eq_true, if_false, hu, hc]
      exact getUser_setUser st uid _ hsome
    · exact logEntries_appendLog _ _
        (semicolon_not_mem_encode today _ htoday hm)
        (encode_ne_nil today _)
  · intro a args cell ha h1 h5 hc
    constructor
    · have hg : (isdigitStr a && decide (1 ≤ digitsVal a) && decide (digitsVal a ≤ 5)) = true := by
        rw [ha, decide_eq_true h1, decide_eq_true h5]
        rfl
      rw [log_stress]
      simp only [hg, Bool.not_true, Bool.false_eq_true, if_false, hu, hc]
      exact getUser_setUser st uid _ hsome
    · exact logEntries_appendLog _ _
        (semicolon_not_mem_encode today _ htoday (semicolon_not_mem_natToChars _))
        (encode_ne_nil today _)

/-- A concrete one-user record for the command witnesses; the water log
already holds one entry, the other log cells hold empty strings. -/
def sampleRecord : UserRecord :=
  ⟨("ann").toList, 70, 175, ("fitness").toList, [], none, [], [],
   some (("2024-01-01:250").toList), some [], some [], some [], some []⟩

/-- A concrete one-row store for the command witnesses. -/
def sampleStore : Store := [(7, sampleRecord)]

/-- Witness for C5: appending 250ml of water on 2024-01-02 to the stored
water log `2024-01-01:250` keeps the old entry first and unchanged and puts
the new token last. -/
theorem c5_append_only_witness :
    getUser (log_water sampleStore 7 [("250").toList] (("2024-01-02").toList)).1 7 =
      some { sampleRecord with
        water_log := some (appendLog (("2024-01-01:250").toList)
          (("2024-01-02").toList ++ ':' :: natToChars (digitsVal (("250").toList)))) } ∧
    logEntries (appendLog (("2024-01-01:250").toList)
        (("2024-01-02").toList ++ ':' :: natToChars (digitsVal (("250").toList)))) =
      logEntries (("2024-01-01:250").toList) ++
        [("2024-01-02").toList ++ ':' :: natToChars (digitsVal (("250").toList))] :=
  (c5_append_only sampleStore 7 sampleRecord (("2024-01-02").toList)
    (by rfl) (by decide)).1 (("250").toList) [] (("2024-01-01:250").toList)
    (by decide) (by rfl)

/-- C8: a metric-log command addressed to a user id with no stored record
answers with the "set your profile first" rejection and leaves the store
completely unchanged — no partial record is created.  One conjunct per
command, each under its argument-validation precondition: an invalid
argument is answered with the usage message before the store is consulted,
and a multi-dot `/log_sleep` argument such as `1.2.3` makes `float()`
raise at src/main.py line 261, also before the store is read and without
a write, so the sleep conjunct additionally assumes the argument parses
as a float. -/
theorem c8_no_profile_rejects (st : Store) (uid : Nat) (today : PyStr)
    (h : getUser st uid = none) :
    (∀ a args, isdigitStr a = true →
      log_water st uid (a :: args) today = (st, some .profileFirst))
    ∧ (∀ a args, isdigitStr (removeDots a) = true → (parseDec? a).isSome = true →
      log_sleep st uid (a :: args) today = (st, some .profileFirst))
    ∧ (∀ a b args, isdigitStr a = true →
      log_calories st uid (a :: b :: args) today = (st, some .profileFirst))
    ∧ (∀ args, (joinSp args).isEmpty = false →
      log_workout st uid args today = (st, some .profileFirst))
    ∧ (∀ a args, isdigitStr a = true → 1 ≤ digitsVal a → digitsVal a ≤ 5 →
      log_stress st uid (a :: args) today = (st, some .profileFirst)) := by
  refine ⟨?_, ?_, ?_, ?_, ?_⟩
  · intro a args ha
    rw [log_water]
    simp [ha, h]
  · intro a args ha hq
    obtain ⟨q, hq⟩ := Option.isSome_iff_exists.mp hq
    rw [log_sleep]
    simp [ha, hq, h]
  · intro a b args ha
    rw [log_calories]
    simp [ha, h]
    all_goals simp
  · intro args hne
    rw [log_workout]
    simp [hne, h]
  · intro a args ha h1 h5
    have hg : (isdigitStr a && decide (1 ≤ digitsVal a) && decide (digitsVal a ≤ 5)) = true := by
      rw [ha, decide_eq_true h1, decide_eq_true h5]
      rfl
    rw [log_stress]
    simp [hg, h]

/-- Witness for C8: every log command for the unknown user id 8 answers
"set your profile first" and leaves the one-row store untouched. -/
theorem c8_no_profile_rejects_witness :
    log_water sampleStore 8 [("500").toList] (("2024-01-02").toList) =
      (sampleStore, some .profileFirst)
    ∧ log_sleep sampleStore 8 [("7.5").toList] (("2024-01-02").toList) =
      (sampleStore, some .profileFirst)
    ∧ log_calories sampleStore 8 [("600").toList, ("pasta").toList] (("2024-01-02").toList) =
      (sampleStore, some .profileFirst)
    ∧ log_workout sampleStore 8 [("yoga").toList] (("2024-01-02").toList) =
      (sampleStore, some .profileFirst)
    ∧ log_stress sampleStore 8 [("3").toList] (("2024-01-02").toList) =
      (sampleStore, some .profileFirst) := by
  have h := c8_no_profile_rejects sampleStore 8 (("2024-01-02").toList) (by rfl)
  exact ⟨h.1 _ [] (by decide),
    h.2.1 _ [] (by decide) (by decide),
    h.2.2.1 _ _ [] (by decide),
    h.2.2.2.1 _ (by decide),
    h.2.2.2.2 _ [] (by decide) (by decide) (by decide)⟩

/-! ## Reminder matching (claim C6) -/

/-- One reminder token's due test, spelled out. -/
theorem reminderDue_iff (nowH nowM : Nat) (r : PyStr) :
    reminderDue nowH nowM r = true ↔
      (r ≠ [] ∧ containsSub atSub r = true ∧
        parseHM (afterLastAt r) = some (nowH, nowM)) := by
  rw [reminderDue]
  cases hp : parseHM (afterLastAt r) with
  | none => simp [hp]
  | some hm =>
    obtain ⟨h, m⟩ := hm
    simp [hp, List.isEmpty_iff, and_assoc, Prod.ext_iff]

/-- C6 counterexample: the stored reminder `09:00` has a time segment
(`split(' at ')[-1]` of the whole string) that parses as 09:00 and matches
now = 09:00, yet it is never reported due: the code additionally requires
the substring `'at'` before it even looks at the time. -/
theorem c6_counterexample :
    dueReminders (("09:00").toList) 9 0 = []
    ∧ parseHM (afterLastAt (("09:00").toList)) = some (9, 0) := by
  constructor
  · decide
  · decide

/-- C6 amended: a stored reminder is reported due iff it is nonempty,
contains the substring `'at'`, and its time segment
(`reminder.split(' at ')[-1]`) parses as a valid 24-hour HH:MM time whose
hour and minute equal now's exactly (no range, no catch-up); a reminder
whose time segment fails to parse is never due and parsing never raises
(the model is a total function). -/
theorem c6_amended_due_iff (cell : PyStr) (nowH nowM : Nat) (r : PyStr) :
    r ∈ dueReminders cell nowH nowM ↔
      (r ∈ splitPy cell ';' ∧ r ≠ [] ∧ containsSub atSub r = true ∧
        parseHM (afterLastAt r) = some (nowH, nowM)) := by
  rw [dueReminders, List.mem_filter, reminderDue_iff]

/-- Witness for C6: `drink water at 09:00` is due at 09:00 sharp. -/
theorem c6_amended_due_iff_witness :
    ("drink water at 09:00").toList ∈
      dueReminders (("drink water at 09:00").toList) 9 0 :=
  (c6_amended_due_iff _ 9 0 _).mpr ⟨by decide, by decide, by decide, by decide⟩

/-! ## Goal-progress evaluator (claim C7) -/

/-- A string containing `kg` literally contains `kg`. -/
theorem containsSub_kg_sandwich : ∀ (a b : PyStr),
    containsSub kgSub (a ++ 'k' :: 'g' :: b) = true
  | [], b => by simp [containsSub, startsWith, kgSub]
  | c :: t, b => by
    rw [List.cons_append, containsSub]
    simp [containsSub_kg_sandwich t b]

/-- Splitting on the first `kg` returns everything before it. -/
theorem beforeFirstKg_append : ∀ (lit rest : PyStr), containsSub kgSub lit = false →
    beforeFirstKg (lit ++ 'k' :: 'g' :: rest) = lit
  | [], rest => by
    intro _
    rw [List.nil_append, beforeFirstKg]
    simp [startsWith, kgSub]
  | c :: t, rest => by
    intro hc
    simp only [containsSub, Bool.or_eq_false_iff] at hc
    rw [List.cons_append, beforeFirstKg]
    have hns : startsWith kgSub (c :: (t ++ 'k' :: 'g' :: rest)) = false := by
      cases t with
      | nil =>
        simp only [List.nil_append]
        simp only [kgSub, startsWith, Bool.and_eq_true, Bool.and_eq_false_iff]
        by_cases hck : c = 'k'
        · subst hck
          right
          simp [startsWith]
        · left
          exact decide_eq_false (fun h => hck h.symm)
      | cons d t2 =>
        have he : startsWith kgSub (c :: (d :: t2 ++ 'k' :: 'g' :: rest)) =
            startsWith kgSub (c :: d :: t2) := by
          simp [startsWith, kgSub, List.cons_append]
        rw [he]
        exact hc.1
    rw [hns]
    simp only [if_false, Bool.false_eq_true]
    rw [beforeFirstKg_append t rest hc.2]

/-- Counterexample to C7: a weight-loss user whose progress cell was never
set.  The spec says empty progress reports "no valid data logged", but the
empty CSV cell reads back as NaN, which is truthy, so the guard
`progress and 'kg' in progress.lower()` (src/main.py line 525) evaluates
`nan.lower()` and raises AttributeError: `/goal_progress` crashes with no
reply instead of reporting the no-data branch. -/
theorem c7_counterexample :
    goal_progress (("weight_loss").toList) none [] [] = none := by
  rfl

/-- C7 (amended): for a user whose goal is weight_loss or lose_weight
(compared case-insensitively), a stored progress string that is a leading
`float()` literal (optionally signed, with optional exponent, or an
`inf`/`nan` word) followed by the `kg` unit reports exactly that float as
the weight change (the code path that also prints the fixed weekly-rate
tip), while a stored progress string that is empty, lacks `kg`, or has an
unparseable leading quantity reports the no-valid-data branch; a progress
cell never set since profile creation is NaN and makes the command raise
instead of reporting (see the counterexample). -/
theorem c7_weight_loss_goal (goal : PyStr) (progress : Option PyStr)
    (wlogs : List PyStr) (start : PyStr)
    (hg : toLowerStr goal = ("weight_loss").toList ∨
      toLowerStr goal = ("lose_weight").toList) :
    (∀ p lit rest f, progress = some p → p = lit ++ 'k' :: 'g' :: rest →
      containsSub kgSub lit = false →
      parseFloat? (stripStr lit) = some f →
      goal_progress goal progress wlogs start = some (.weightChange f))
    ∧ (∀ p, progress = some p →
      (p = [] ∨ containsSub kgSub (toLowerStr p) = false ∨
        parseFloat? (stripStr (beforeFirstKg p)) = none) →
      ∃ rep, goal_progress goal progress wlogs start = some rep ∧
        rep.isNoData = true)
    ∧ (progress = none → goal_progress goal progress wlogs start = none) := by
  have hgate : (toLowerStr goal == ("weight_loss").toList ||
      toLowerStr goal == ("lose_weight").toList) = true := by
    rcases hg with h | h <;> simp [h]
  refine ⟨?_, ?_, ?_⟩
  · intro p lit rest f hps hp hlit hq
    subst hps
    subst hp
    have hne : (lit ++ 'k' :: 'g' :: rest).isEmpty = false := by
      cases lit <;> rfl
    have hcont : containsSub kgSub (toLowerStr (lit ++ 'k' :: 'g' :: rest)) = true := by
      have hk : Char.toLower 'k' = 'k' := by decide
      have hgc : Char.toLower 'g' = 'g' := by decide
      rw [toLowerStr, List.map_append, List.map_cons, List.map_cons, hk, hgc]
      exact containsSub_kg_sandwich _ _
    rw [goal_progress]
    simp only [hgate, if_true, hne, hcont, Bool.not_false, Bool.true_and]
    rw [beforeFirstKg_append lit rest hlit, hq]
  · intro p hps hcase
    subst hps
    rw [goal_progress]
    simp only [hgate, if_true]
    cases hgrd : (!p.isEmpty && containsSub kgSub (toLowerStr p)) with
    | false =>
      simp only [hgrd, Bool.false_eq_true, if_false]
      exact ⟨.noWeightChange, rfl, rfl⟩
    | true =>
      simp only [hgrd, if_true]
      rw [Bool.and_eq_true] at hgrd
      have h1 : p ≠ [] := by
        intro he
        rw [he] at hgrd
        simp at hgrd
      rcases hcase with hc | hc | hc
      · exact absurd hc h1
      · rw [hc] at hgrd
        simp at hgrd
      · rw [hc]
        exact ⟨.noValidWeightChange, rfl, rfl⟩
  · intro hps
    subst hps
    rw [goal_progress]
    simp only [hgate, if_true]

/-- Witness for C7: progress `-2.3kg` under goal `Weight_Loss` reports a
weight change of -2.3, progress `+2.3kg` (a `+`-signed literal `float()`
accepts) reports +2.3, and progress `feeling good` under goal
`weight_loss` reports the no-valid-data branch. -/
theorem c7_weight_loss_goal_witness :
    goal_progress (("Weight_Loss").toList) (some (("-2.3kg").toList)) [] [] =
      some (.weightChange (.finite (-(23 : ℚ)/10)))
    ∧ goal_progress (("weight_loss").toList) (some (("+2.3kg").toList)) [] [] =
      some (.weightChange (.finite ((23 : ℚ)/10)))
    ∧ (∃ rep, goal_progress (("weight_loss").toList) (some (("feeling good").toList)) [] [] =
        some rep ∧ rep.isNoData = true) := by
  refine ⟨?_, ?_, ?_⟩
  · refine (c7_weight_loss_goal _ _ [] [] (by left; decide)).1
      _ (("-2.3").toList) [] (.finite (-(23 : ℚ)/10)) rfl (by decide) (by decide) ?_
    have hb : parseMantissaExp? ['2', '.', '3'] = some ((23 : ℚ)/10) := by
      simp [parseMantissaExp?, breakAtExp, parseDecCore, splitPy,
        parseNat?, digitsVal, isDigitCh]
      norm_num
    have hs : stripStr (stripStr (("-2.3").toList)) = '-' :: ['2', '.', '3'] := by decide
    rw [parseFloat?, hs]
    show (parseFloatCore ['2', '.', '3']).map PyFloat.neg =
      some (.finite (-(23 : ℚ)/10))
    simp only [parseFloatCore]
    rw [if_neg (by decide), if_neg (by decide), hb]
    simp [PyFloat.neg]
    norm_num
  · refine (c7_weight_loss_goal _ _ [] [] (by left; decide)).1
      _ (("+2.3").toList) [] (.finite ((23 : ℚ)/10)) rfl (by decide) (by decide) ?_
    have hb : parseMantissaExp? ['2', '.', '3'] = some ((23 : ℚ)/10) := by
      simp [parseMantissaExp?, breakAtExp, parseDecCore, splitPy,
        parseNat?, digitsVal, isDigitCh]
      norm_num
    have hs : stripStr (stripStr (("+2.3").toList)) = '+' :: ['2', '.', '3'] := by decide
    rw [parseFloat?, hs]
    show parseFloatCore ['2', '.', '3'] = some (.finite ((23 : ℚ)/10))
    simp only [parseFloatCore]
    rw [if_neg (by decide), if_neg (by decide), hb]
    rfl
  · exact (c7_weight_loss_goal _ _ [] [] (by left; decide)).2.1
      _ rfl (by right; left; decide)

/-! ## Weekly-trend classification order (claim C1) -/

/-- Strict comparison implies the non-strict one. -/
theorem strLe_of_strLt (a b : PyStr) (h : strLt a b = true) : strLe a b = true := by
  rw [strLe, strLt_asymm a b h]
  rfl

/-- Non-strictly smaller and different means strictly smaller. -/
theorem strLt_of_strLe_of_ne (a b : PyStr) (h : strLe a b = true) (hne : a ≠ b) :
    strLt a b = true := by
  rcases hb : strLt a b with _ | _
  · rw [strLe, Bool.not_eq_true'] at h
    exact absurd (strLt_conn a b hb h) hne
  · rfl

/-- Dates of the windowed tokens of a log, in log order. -/
def windowedDates (logs : List PyStr) (start : PyStr) : List PyStr :=
  (logs.filter (inWindow start)).map tokenDate

/-- Keys (dates) of a daily-totals mapping, in mapping order. -/
def keysOf {α : Type} (m : List (PyStr × α)) : List PyStr := m.map Prod.fst

/-- A dict update keeps the keys, appending the key only when it is new. -/
theorem keysOf_dictUpd {α : Type} (add : α → α → α) (d : PyStr) (v : α)
    (m : List (PyStr × α)) :
    keysOf (dictUpd m d v add) =
      if d ∈ keysOf m then keysOf m else keysOf m ++ [d] := by
  induction m with
  | nil => simp [keysOf, dictUpd]
  | cons p rest ih =>
    obtain ⟨k, x⟩ := p
    rw [dictUpd]
    by_cases hk : k = d
    · subst hk
      rw [if_pos rfl]
      simp only [keysOf, List.map_cons]
      rw [if_pos (List.mem_cons_self k (rest.map Prod.fst))]
    · simp only [keysOf, List.map_cons, List.mem_cons] at ih ⊢
      rw [if_neg hk, List.map_cons, ih]
      have hne : ¬ d = k := fun h => hk h.symm
      by_cases hd : d ∈ rest.map Prod.fst
      · simp [hd, hne]
      · simp [hd, hne]

/-- A dict update never empties the dict. -/
theorem dictUpd_ne_nil {α : Type} (add : α → α → α) (m : List (PyStr × α)) (d : PyStr) (v : α) :
    dictUpd m d v add ≠ [] := by
  cases m with
  | nil => simp [dictUpd]
  | cons p rest =>
    obtain ⟨k, x⟩ := p
    rw [dictUpd]
    split <;> simp

/-- Windowed tokens of the log, decoded to (date, value) pairs in log
order (the pairs the daily-totals loop feeds into the dict). -/
def decodedPairs {α : Type} (getVal : PyStr → Option α) (logs : List PyStr) (start : PyStr) :
    List (PyStr × α) :=
  logs.filterMap (fun tok =>
    if inWindow start tok then (getVal tok).map (fun v => (tokenDate tok, v)) else none)

/-- When every windowed token decodes, the daily-totals loop succeeds and
equals the pure fold of dict updates over the decoded pairs. -/
theorem buildDaily_eq_foldl {α : Type} (getVal : PyStr → Option α) (add : α → α → α)
    (start : PyStr) :
    ∀ (logs : List PyStr) (init : List (PyStr × α)),
    (∀ tok ∈ logs, inWindow start tok = true → (getVal tok).isSome = true) →
    List.foldlM
      (fun m tok =>
        if inWindow start tok then (getVal tok).map (fun v => dictUpd m (tokenDate tok) v add)
        else pure m)
      init logs =
    some ((decodedPairs getVal logs start).foldl (fun m p => dictUpd m p.1 p.2 add) init)
  | [], init => by intro _; rfl
  | tok :: rest, init => by
    intro hp
    rw [List.foldlM_cons, decodedPairs, List.filterMap_cons]
    rcases hw : inWindow start tok with _ | _
    · simp only [Bool.false_eq_true, if_false]
      have ih := buildDaily_eq_foldl getVal add start rest init
        (fun t ht => hp t (List.mem_cons_of_mem tok ht))
      rw [decodedPairs] at ih
      simpa using ih
    · have hv := hp tok (List.mem_cons_self tok rest) hw
      rcases hval : getVal tok with _ | ⟨v⟩
      · rw [hval] at hv
        cases hv
      · simp only [if_true, hval, Option.map_some']
        have ih := buildDaily_eq_foldl getVal add start rest
          (dictUpd init (tokenDate tok) v add)
          (fun t ht => hp t (List.mem_cons_of_mem tok ht))
        rw [decodedPairs] at ih
        simpa using ih

/-- The decoded pairs carry exactly the windowed dates, in order. -/
theorem decodedPairs_map_fst {α : Type} (getVal : PyStr → Option α) (start : PyStr) :
    ∀ (logs : List PyStr),
    (∀ tok ∈ logs, inWindow start tok = true → (getVal tok).isSome = true) →
    (decodedPairs getVal logs start).map Prod.fst = windowedDates logs start
  | [] => by intro _; rfl
  | tok :: rest => by
    intro hp
    have ih := decodedPairs_map_fst getVal start rest
      (fun t ht => hp t (List.mem_cons_of_mem tok ht))
    rw [decodedPairs, List.filterMap_cons, windowedDates, List.filter_cons]
    rcases hw : inWindow start tok with _ | _
    · simp only [Bool.false_eq_true, if_false]
      rw [decodedPairs] at ih
      rw [windowedDates] at ih
      simpa using ih
    · have hv := hp tok (List.mem_cons_self tok rest) hw
      rcases hval : getVal tok with _ | ⟨v⟩
      · rw [hval] at hv
        cases hv
      · simp only [if_true, hval, Option.map_some', List.map_cons]
        rw [decodedPairs, windowedDates] at ih
        simpa using ih

/-- The decoded pairs are empty exactly when no token is in the window. -/
theorem decodedPairs_eq_nil_iff {α : Type} (getVal : PyStr → Option α) (start : PyStr)
    (logs : List PyStr)
    (hp : ∀ tok ∈ logs, inWindow start tok = true → (getVal tok).isSome = true) :
    (decodedPairs getVal logs start = [] ↔ logs.filter (inWindow start) = []) := by
  have h := decodedPairs_map_fst getVal start logs hp
  constructor
  · intro he
    rw [he] at h
    rw [windowedDates] at h
    exact List.map_eq_nil_iff.mp h.symm
  · intro he
    rcases hd : decodedPairs getVal logs start with _ | ⟨p, rest⟩
    · rfl
    · rw [hd, windowedDates, he] at h
      cases h

/-- Folding dict updates whose dates arrive in nondecreasing order onto a
dict with strictly increasing keys that all precede the incoming dates
keeps the keys strictly increasing: the insertion-order dict stays in
chronological order. -/
theorem foldl_dictUpd_sorted {α : Type} (add : α → α → α) :
    ∀ (ps : List (PyStr × α)) (m0 : List (PyStr × α)),
    List.Pairwise (fun a b => strLe a b = true) (ps.map Prod.fst) →
    List.Pairwise (fun a b => strLt a b = true) (keysOf m0) →
    (∀ k ∈ keysOf m0, ∀ p ∈ ps, strLe k p.1 = true) →
    List.Pairwise (fun a b => strLt a b = true)
      (keysOf (ps.foldl (fun m p => dictUpd m p.1 p.2 add) m0))
  | [], m0 => by
    intro _ hm0 _
    exact hm0
  | p :: rest, m0 => by
    intro hps hm0 hbound
    rw [List.map_cons, List.pairwise_cons] at hps
    rw [List.foldl_cons]
    apply foldl_dictUpd_sorted add rest (dictUpd m0 p.1 p.2 add) hps.2
    · rw [keysOf_dictUpd]
      by_cases hin : p.1 ∈ keysOf m0
      · rw [if_pos hin]
        exact hm0
      · rw [if_neg hin]
        rw [List.pairwise_append]
        refine ⟨hm0, List.pairwise_singleton _ _, ?_⟩
        intro k hk b hb
        rw [List.mem_singleton] at hb
        subst hb
        exact strLt_of_strLe_of_ne k p.1
          (hbound k hk p (List.mem_cons_self p rest))
          (fun he => hin (he ▸ hk))
    · intro k hk q hq
      rw [keysOf_dictUpd] at hk
      have hk2 : k ∈ keysOf m0 ∨ k = p.1 := by
        by_cases hin : p.1 ∈ keysOf m0
        · rw [if_pos hin] at hk
          exact Or.inl hk
        · rw [if_neg hin] at hk
          rcases List.mem_append.mp hk with h | h
          · exact Or.inl h
          · exact Or.inr (List.mem_singleton.mp h)
      rcases hk2 with h | h
      · exact hbound k h q (List.mem_cons_of_mem p hq)
      · subst h
        exact hps.1 q.1 (List.mem_map_of_mem Prod.fst hq)

/-- The fold of dict updates is empty exactly when no pair came in. -/
theorem foldl_dictUpd_ne_nil {α : Type} (add : α → α → α) :
    ∀ (ps : List (PyStr × α)) (m0 : List (PyStr × α)),
    m0 ≠ [] ∨ ps ≠ [] →
    ps.foldl (fun m p => dictUpd m p.1 p.2 add) m0 ≠ []
  | [], m0 => by
    intro h
    rcases h with h | h
    · exact h
    · exact absurd rfl h
  | p :: rest, m0 => by
    intro _
    rw [List.foldl_cons]
    exact foldl_dictUpd_ne_nil add rest _ (Or.inl (dictUpd_ne_nil add m0 p.1 p.2))

/-- Insertion sort leaves a mapping with increasing keys unchanged: such a
mapping already is the spec's chronologically ordered daily-totals
mapping. -/
theorem sortByKey_sorted_id {α : Type} :
    ∀ (m : List (PyStr × α)),
    List.Pairwise (fun a b => strLt a b = true) (keysOf m) →
    sortByKey m = m
  | [] => by intro _; rfl
  | p :: rest => by
    intro h
    rw [keysOf, List.map_cons, List.pairwise_cons] at h
    rw [sortByKey, sortByKey_sorted_id rest h.2]
    cases rest with
    | nil => rfl
    | cons q rest2 =>
      rw [insertByKey]
      rw [if_pos (strLe_of_strLt p.1 q.1
        (h.1 q.1 (List.mem_map_of_mem Prod.fst (List.mem_cons_self q rest2))))]

/-- When the mapping is already chronologically sorted, the code's
insertion-order two-point rule is exactly the spec's chronological
two-point rule (a strict polarity never fires on a single bucket). -/
theorem classify_eq_specTrendChron {α : Type} (pol : α → α → Bool)
    (hpol : ∀ v, pol v v = false) (up dn : Trend) (m : List (PyStr × α))
    (hsort : sortByKey m = m) :
    classifyTwoPoint pol up dn m = specTrendChron pol up dn m := by
  rw [specTrendChron]
  simp only [hsort]
  cases m with
  | nil => rfl
  | cons p rest =>
    cases rest with
    | nil =>
      simp [classifyTwoPoint, twoPoint, hpol p.2]
    | cons q rest2 =>
      rcases hl : (q.2 :: List.map Prod.snd rest2).getLast? with _ | ⟨l⟩
      · simp at hl
      · simp [classifyTwoPoint, twoPoint, hl]

/-- A mapping with exactly one bucket lands in the stable branch. -/
theorem classify_singleton {α : Type} (pol : α → α → Bool) (up dn : Trend)
    (m : List (PyStr × α)) (hlen : m.length = 1) :
    classifyTwoPoint pol up dn m = dn := by
  cases m with
  | nil => cases hlen
  | cons p rest =>
    cases rest with
    | nil => simp [classifyTwoPoint, twoPoint]
    | cons q rest2 => simp at hlen

/-- Generic amended trend property: when every windowed token decodes and
the windowed dates arrive in nondecreasing log order, the daily-totals
loop succeeds; its mapping is chronologically ordered (sorting it is the
identity); the classification equals the spec's chronological two-point
classification; the mapping is empty exactly when no token is in the
window (the `NoData` case); and a single-bucket mapping lands in the
stable branch. -/
theorem buildDaily_amended {α : Type} (getVal : PyStr → Option α) (add : α → α → α)
    (pol : α → α → Bool) (hpol : ∀ v, pol v v = false) (up dn : Trend)
    (logs : List PyStr) (start : PyStr)
    (hp : ∀ tok ∈ logs, inWindow start tok = true → (getVal tok).isSome = true)
    (hs : List.Pairwise (fun a b => strLe a b = true) (windowedDates logs start)) :
    ∃ m, buildDaily getVal add logs start = some m ∧
      sortByKey m = m ∧
      classifyTwoPoint pol up dn m = specTrendChron pol up dn m ∧
      (m = [] ↔ logs.filter (inWindow start) = []) ∧
      (m.length = 1 → classifyTwoPoint pol up dn m = dn) := by
  refine ⟨(decodedPairs getVal logs start).foldl (fun m p => dictUpd m p.1 p.2 add) [], ?_, ?_, ?_, ?_, ?_⟩
  · rw [buildDaily]
    exact buildDaily_eq_foldl getVal add start logs [] hp
  · apply sortByKey_sorted_id
    apply foldl_dictUpd_sorted add (decodedPairs getVal logs start) []
    · rw [decodedPairs_map_fst getVal start logs hp]
      exact hs
    · exact List.Pairwise.nil
    · intro k hk
      cases hk
  · apply classify_eq_specTrendChron pol hpol
    apply sortByKey_sorted_id
    apply foldl_dictUpd_sorted add (decodedPairs getVal logs start) []
    · rw [decodedPairs_map_fst getVal start logs hp]
      exact hs
    · exact List.Pairwise.nil
    · intro k hk
      cases hk
  · rw [← decodedPairs_eq_nil_iff getVal start logs hp]
    constructor
    · intro he
      rcases hd : decodedPairs getVal logs start with _ | ⟨p, rest⟩
      · rfl
      · rw [hd] at he
        exact absurd he (foldl_dictUpd_ne_nil add (p :: rest) [] (Or.inr (by simp)))
    · intro he
      rw [he]
      rfl
  · intro hlen
    exact classify_singleton pol up dn _ hlen

/-- C1 counterexample: with the stored water log
`2024-01-02:10;2024-01-01:5` (dates out of order) and window start
`2024-01-01`, the code compares the first and last values of the
insertion-order dict `{2024-01-02: 10, 2024-01-01: 5}` and reports
"Stable or declining", while the claim's chronologically ordered
daily-totals mapping `{2024-01-01: 5, 2024-01-02: 10}` has last > first
and yields "Improving". -/
theorem c1_counterexample :
    weeklyTrendWater [("2024-01-02:10").toList, ("2024-01-01:5").toList]
      (("2024-01-01").toList) = some .stableOrDeclining
    ∧ specWeeklyTrendWater [("2024-01-02:10").toList, ("2024-01-01:5").toList]
      (("2024-01-01").toList) = some .improving := by
  constructor
  · decide
  · decide

/-- C1 amended: the weekly-trend classification of each metric compares
only the first and the last bucket value of the daily-totals mapping in
log (first-appearance) order; whenever the windowed entries' dates are
nondecreasing in log order — as for logs produced by the append-only
handlers under a monotone clock — that mapping coincides with the
chronologically ordered daily-totals mapping and the classification
agrees with the spec's chronological two-point rule with the
metric-specific polarity (water/sleep: last > first means Improving, else
the stable-or-declining branch; calories: last < first means Decreasing,
else stable-or-increasing; workouts: last > first means MoreActive, else
stable-or-less-active; stress: last < first means Improving, else
stable-or-worsening); the mapping is empty — the NoData reply — exactly
when zero windowed tokens exist, and exactly one distinct day of data
lands in the stable branch without error. -/
theorem c1_amended_trend_two_point
    (logs_w logs_s logs_c logs_k logs_t : List PyStr) (start : PyStr)
    (hpw : ∀ tok ∈ logs_w, inWindow start tok = true → (tokenInt tok).isSome = true)
    (hsw : List.Pairwise (fun a b => strLe a b = true) (windowedDates logs_w start))
    (hps : ∀ tok ∈ logs_s, inWindow start tok = true → (tokenDec tok).isSome = true)
    (hss : List.Pairwise (fun a b => strLe a b = true) (windowedDates logs_s start))
    (hpc : ∀ tok ∈ logs_c, inWindow start tok = true → (tokenInt tok).isSome = true)
    (hsc : List.Pairwise (fun a b => strLe a b = true) (windowedDates logs_c start))
    (hsk : List.Pairwise (fun a b => strLe a b = true) (windowedDates logs_k start))
    (hpt : ∀ tok ∈ logs_t, inWindow start tok = true → (tokenInt tok).isSome = true)
    (hst : List.Pairwise (fun a b => strLe a b = true) (windowedDates logs_t start)) :
    (∃ m, dailyWater logs_w start = some m ∧ sortByKey m = m ∧
      waterTrend m = specTrendChron (fun (f l : Int) => decide (f < l))
        .improving .stableOrDeclining m ∧
      (m = [] ↔ logs_w.filter (inWindow start) = []) ∧
      (m.length = 1 → waterTrend m = .stableOrDeclining))
    ∧ (∃ m, dailySleep logs_s start = some m ∧ sortByKey m = m ∧
      sleepTrend m = specTrendChron (fun (f l : ℚ) => decide (f < l))
        .improving .stableOrDeclining m ∧
      (m = [] ↔ logs_s.filter (inWindow start) = []) ∧
      (m.length = 1 → sleepTrend m = .stableOrDeclining))
    ∧ (∃ m, dailyCalories logs_c start = some m ∧ sortByKey m = m ∧
      calorieTrend m = specTrendChron (fun (f l : Int) => decide (l < f))
        .decreasing .stableOrIncreasing m ∧
      (m = [] ↔ logs_c.filter (inWindow start) = []) ∧
      (m.length = 1 → calorieTrend m = .stableOrIncreasing))
    ∧ (∃ m, dailyWorkouts logs_k start = some m ∧ sortByKey m = m ∧
      workoutTrend m = specTrendChron (fun (f l : Nat) => decide (f < l))
        .moreActive .stableOrLessActive m ∧
      (m = [] ↔ logs_k.filter (inWindow start) = []) ∧
      (m.length = 1 → workoutTrend m = .stableOrLessActive))
    ∧ (∃ m, dailyStress logs_t start = some m ∧ sortByKey m = m ∧
      stressTrend m = specTrendChron (fun (f l : Int) => decide (l < f))
        .improving .stableOrWorsening m ∧
      (m = [] ↔ logs_t.filter (inWindow start) = []) ∧
      (m.length = 1 → stressTrend m = .stableOrWorsening)) := by
  refine ⟨?_, ?_, ?_, ?_, ?_⟩
  · exact buildDaily_amended tokenInt (· + ·) _ (fun v => by simp)
      .improving .stableOrDeclining logs_w start hpw hsw
  · exact buildDaily_amended tokenDec (· + ·) _ (fun v => by simp)
      .improving .stableOrDeclining logs_s start hps hss
  · exact buildDaily_amended tokenInt (· + ·) _ (fun v => by simp)
      .decreasing .stableOrIncreasing logs_c start hpc hsc
  · exact buildDaily_amended (fun _ => some 1) (· + ·) _ (fun v => by simp)
      .moreActive .stableOrLessActive logs_k start (fun tok _ _ => rfl) hsk
  · exact buildDaily_amended tokenInt (· + ·) _ (fun v => by simp)
      .improving .stableOrWorsening logs_t start hpt hst

/-- Witness for the amended C1 at concrete in-order logs for all five
metrics (the empty calorie log exercises the NoData case, the one-day
stress log the single-day stable branch). -/
theorem c1_amended_trend_two_point_witness :
    (∃ m, dailyWater [("2024-01-01:500").toList, ("2024-01-02:750").toList]
        (("2024-01-01").toList) = some m ∧ sortByKey m = m ∧
      waterTrend m = specTrendChron (fun (f l : Int) => decide (f < l))
        .improving .stableOrDeclining m ∧
      (m = [] ↔ ([("2024-01-01:500").toList, ("2024-01-02:750").toList]).filter
          (inWindow (("2024-01-01").toList)) = []) ∧
      (m.length = 1 → waterTrend m = .stableOrDeclining))
    ∧ (∃ m, dailySleep [("2024-01-01:7.5").toList]
        (("2024-01-01").toList) = some m ∧ sortByKey m = m ∧
      sleepTrend m = specTrendChron (fun (f l : ℚ) => decide (f < l))
        .improving .stableOrDeclining m ∧
      (m = [] ↔ ([("2024-01-01:7.5").toList]).filter
          (inWindow (("2024-01-01").toList)) = []) ∧
      (m.length = 1 → sleepTrend m = .stableOrDeclining))
    ∧ (∃ m, dailyCalories ([] : List PyStr)
        (("2024-01-01").toList) = some m ∧ sortByKey m = m ∧
      calorieTrend m = specTrendChron (fun (f l : Int) => decide (l < f))
        .decreasing .stableOrIncreasing m ∧
      (m = [] ↔ ([] : List PyStr).filter (inWindow (("2024-01-01").toList)) = []) ∧
      (m.length = 1 → calorieTrend m = .stableOrIncreasing))
    ∧ (∃ m, dailyWorkouts [("2024-01-01:yoga").toList, ("2024-01-02:run").toList]
        (("2024-01-01").toList) = some m ∧ sortByKey m = m ∧
      workoutTrend m = specTrendChron (fun (f l : Nat) => decide (f < l))
        .moreActive .stableOrLessActive m ∧
      (m = [] ↔ ([("2024-01-01:yoga").toList, ("2024-01-02:run").toList]).filter
          (inWindow (("2024-01-01").toList)) = []) ∧
      (m.length = 1 → workoutTrend m = .stableOrLessActive))
    ∧ (∃ m, dailyStress [("2024-01-03:2").toList]
        (("2024-01-01").toList) = some m ∧ sortByKey m = m ∧
      stressTrend m = specTrendChron (fun (f l : Int) => decide (l < f))
        .improving .stableOrWorsening m ∧
      (m = [] ↔ ([("2024-01-03:2").toList]).filter
          (inWindow (("2024-01-01").toList)) = []) ∧
      (m.length = 1 → stressTrend m = .stableOrWorsening)) :=
  c1_amended_trend_two_point
    [("2024-01-01:500").toList, ("2024-01-02:750").toList]
    [("2024-01-01:7.5").toList]
    ([] : List PyStr)
    [("2024-01-01:yoga").toList, ("2024-01-02:run").toList]
    [("2024-01-03:2").toList]
    (("2024-01-01").toList)
    (by decide) (by decide) (by decide) (by decide) (by decide) (by decide)
    (by decide) (by decide) (by decide)

end HealthBot
